import Mathlib

/-!
Verification of the Project Repository of a CRUD application.

The repository exists in two driver variants shown in the source:
a SQLite variant (booleans stored as 0/1 integers, `LIKE` search,
read-after-write in `createProject`/`updateProject`) and a PostgreSQL
variant (native booleans, `ILIKE` search, `RETURNING` clauses, and a
short-circuit in `updateProject` when no field besides the timestamp is
supplied). Both are embedded below, together with the Zod validation
schemas and the form-data extraction performed by the server actions.

Timestamps are modelled as natural numbers (`datetime('now')` / `NOW()`
reads the store clock `Db.now`); the clock is advanced externally by
`tick`. SQL `CHECK` constraints are evaluated per inserted/updated row,
exactly as SQLite/PostgreSQL do: a statement that updates zero rows never
evaluates the constraint.
-/

namespace ProjectRepo

/-- The closed category set of the `CHECK(category IN (...))` constraint,
shared by both schema variants. -/
def validCategories : List String :=
  ["infrastructure", "product", "marketing", "internal"]

/-- Membership test for the category `CHECK` constraint. -/
def validCategory (c : String) : Bool := validCategories.contains c

/-- Storage-boundary errors: `storage` models a driver error raised by a
constraint violation (the spec's StorageError); `app` models the
`throw new Error(...)` in the SQLite `createProject`. -/
inductive DbError where
  | storage
  | app (msg : String)
deriving DecidableEq

instance {ε α : Type} [DecidableEq ε] [DecidableEq α] : DecidableEq (Except ε α) := fun a b =>
  match a, b with
  | .ok x, .ok y =>
    if h : x = y then isTrue (h ▸ rfl) else isFalse (by intro hh; cases hh; exact h rfl)
  | .ok _, .error _ => isFalse (by intro hh; cases hh)
  | .error _, .ok _ => isFalse (by intro hh; cases hh)
  | .error e, .error f =>
    if h : e = f then isTrue (h ▸ rfl) else isFalse (by intro hh; cases hh; exact h rfl)

/-- Input type for creating a new project (excludes auto-generated
fields), from `schema.ts`. `category` is a plain string at the storage
boundary so that bypassing application validation can be expressed. -/
structure CreateProjectInput where
  name : String
  description : String
  category : String
  isPublic : Bool
deriving DecidableEq

/-- Input type for updating a project (all fields optional except `id`),
from `schema.ts`; an absent field (`none`) models a key that is omitted
or supplied as `undefined`. -/
structure UpdateProjectInput where
  id : Nat
  name : Option String
  description : Option String
  category : Option String
  isPublic : Option Bool
deriving DecidableEq

/-- Number of caller-supplied fields of an update input: the number of
`updates.push(...)` / `updates.xxx = ...` statements guarded by an
`!== undefined` test in either variant's `updateProject`. -/
def suppliedCount (input : UpdateProjectInput) : Nat :=
  (if input.name.isSome then 1 else 0) +
  (if input.description.isSome then 1 else 0) +
  (if input.category.isSome then 1 else 0) +
  (if input.isPublic.isSome then 1 else 0)

/-- Lower-cased character list of a string: the common case-folding under
which SQLite's `LIKE` (ASCII) and PostgreSQL's `ILIKE` compare text. -/
def lc (s : String) : List Char := s.data.map Char.toLower

/-- Helper `tryTails f s` applies `f` to every suffix of `s` (including `s`
itself and the empty suffix) and disjoins the results: this is how a
`%` wildcard consumes an arbitrary prefix of the text. -/
def tryTails (f : List Char → Bool) : List Char → Bool
  | [] => f []
  | c :: s' => f (c :: s') || tryTails f s'

/-- SQL `LIKE` pattern matching: `%` matches any (possibly empty)
character sequence, `_` matches exactly one character, any other pattern
character matches itself. -/
def likeMatch : List Char → List Char → Bool
  | [], s => s.isEmpty
  | p :: ps, s =>
    if p = '%' then tryTails (likeMatch ps) s
    else
      match s with
      | [] => false
      | c :: s' =>
        if p = '_' then likeMatch ps s'
        else p == c && likeMatch ps s'

/-- The pattern `` `%${query}%` `` built by `searchProjects`, case-folded. -/
def likePattern (query : String) : List Char := '%' :: (lc query ++ ['%'])

/-- Predicate `segStarts q s` holds when the character list `q` is a prefix of `s`. -/
def segStarts : List Char → List Char → Bool
  | [], _ => true
  | _ :: _, [] => false
  | a :: q, b :: s => a == b && segStarts q s

/-- Predicate `segIn q s` holds when `q` occurs as a contiguous segment of `s`:
the literal substring relation of the specification. -/
def segIn (q : List Char) : List Char → Bool
  | [] => q.isEmpty
  | c :: s' => segStarts q (c :: s') || segIn q s'

/-- Case-insensitive substring containment, the match relation the
specification ascribes to `search`. -/
def containsCI (query s : String) : Bool := segIn (lc query) (lc s)

/-- A query is wildcard-free when it contains neither `%` nor `_`. -/
def noWildcards (query : String) : Bool :=
  query.data.all fun c => !(c == '%') && !(c == '_')

end ProjectRepo

namespace SqliteDb

open ProjectRepo

/-- A row of the SQLite `projects` table: `isPublic` is an integer
(`CHECK(isPublic IN (0, 1))`), timestamps are `datetime('now')` values. -/
structure Project where
  id : Nat
  name : String
  description : String
  category : String
  isPublic : Nat
  createdAt : Nat
  updatedAt : Nat
deriving DecidableEq

/-- Project type with boolean conversion for use in React (`schema.ts`). -/
structure ProjectWithBoolean where
  id : Nat
  name : String
  description : String
  category : String
  isPublic : Bool
  createdAt : Nat
  updatedAt : Nat
deriving DecidableEq

/-- Convert SQLite integer boolean to a JavaScript boolean
(`isPublic: project.isPublic === 1`). -/
def convertToBoolean (p : Project) : ProjectWithBoolean :=
  { id := p.id, name := p.name, description := p.description,
    category := p.category, isPublic := p.isPublic == 1,
    createdAt := p.createdAt, updatedAt := p.updatedAt }

/-- The store: table rows in insertion order, the next `AUTOINCREMENT`
id, and the current clock read by `datetime('now')`. -/
structure Db where
  rows : List Project
  nextId : Nat
  now : Nat
deriving DecidableEq

/-- Advance the wall clock between repository calls. -/
def tick (dt : Nat) (db : Db) : Db := { db with now := db.now + dt }

/-- Descending `updatedAt` order used by `ORDER BY updatedAt DESC`. -/
def updGE (a b : Project) : Prop := b.updatedAt ≤ a.updatedAt

instance : DecidableRel updGE := fun a b =>
  inferInstanceAs (Decidable (b.updatedAt ≤ a.updatedAt))

instance : IsTotal Project updGE := ⟨fun a b => Nat.le_total b.updatedAt a.updatedAt⟩

instance : IsTrans Project updGE := ⟨fun _ _ _ hab hbc => Nat.le_trans hbc hab⟩

/-- Model of `SELECT * FROM projects ORDER BY updatedAt DESC`, rows converted. -/
def getAllProjects (db : Db) : List ProjectWithBoolean :=
  (List.insertionSort updGE db.rows).map convertToBoolean

/-- Model of `SELECT * FROM projects WHERE id = ?`, or `null` when absent. -/
def getProjectById (id : Nat) (db : Db) : Option ProjectWithBoolean :=
  (db.rows.find? fun p => p.id == id).map convertToBoolean

/-- The row built by the `INSERT` of `createProject`: server-assigned id,
both timestamp columns filled by their `datetime('now')` defaults,
`isPublic` encoded with `input.isPublic ? 1 : 0`. -/
def insertedRow (input : CreateProjectInput) (db : Db) : Project :=
  { id := db.nextId, name := input.name, description := input.description,
    category := input.category, isPublic := if input.isPublic then 1 else 0,
    createdAt := db.now, updatedAt := db.now }

/-- Model of `createProject`: run the `INSERT` (which enforces the category
`CHECK` on the new row), then re-read the row by `lastInsertRowid`. -/
def createProject (input : CreateProjectInput) (db : Db) :
    Except DbError (ProjectWithBoolean × Db) :=
  if !validCategory input.category then .error .storage
  else
    let db' : Db := { db with rows := db.rows ++ [insertedRow input db],
                              nextId := db.nextId + 1 }
    match getProjectById db.nextId db' with
    | some p => .ok (p, db')
    | none => .error (.app "Failed to create project")

/-- Effect of the dynamic `SET` clause on one matched row: each supplied
field is overwritten, `updatedAt = datetime('now')` is always set. -/
def applyRow (input : UpdateProjectInput) (now : Nat) (p : Project) : Project :=
  { p with
    name := input.name.getD p.name,
    description := input.description.getD p.description,
    category := input.category.getD p.category,
    isPublic := match input.isPublic with
      | some b => if b then 1 else 0
      | none => p.isPublic,
    updatedAt := now }

/-- A row violates the table's `CHECK` constraints. -/
def rowViolates (p : Project) : Bool :=
  !validCategory p.category || !(p.isPublic == 0 || p.isPublic == 1)

/-- Model of `updateProject`: builds the dynamic `UPDATE` from the supplied
fields, always appending `updatedAt = datetime('now')` (so the
`updates.length === 0` early return is unreachable), runs the statement
(which re-checks the `CHECK` constraints on every matched row), then
re-reads the row by id. -/
def updateProject (input : UpdateProjectInput) (db : Db) :
    Except DbError (Option ProjectWithBoolean × Db) :=
  let updatesLen := suppliedCount input + 1
  if updatesLen == 0 then .ok (getProjectById input.id db, db)
  else if db.rows.any fun p => p.id == input.id && rowViolates (applyRow input db.now p) then
    .error .storage
  else
    let db' : Db := { db with
      rows := db.rows.map fun p => if p.id == input.id then applyRow input db.now p else p }
    .ok (getProjectById input.id db', db')

/-- Model of `deleteProject`: `DELETE FROM projects WHERE id = ?`, returning
`result.changes > 0`. -/
def deleteProject (id : Nat) (db : Db) : Bool × Db :=
  let remaining := db.rows.filter fun p => !(p.id == id)
  (remaining.length < db.rows.length, { db with rows := remaining })

/-- Model of `searchProjects`: `WHERE name LIKE ? OR description LIKE ?` with the
pattern `` `%${query}%` `` (SQLite `LIKE` is ASCII case-insensitive),
`ORDER BY updatedAt DESC`. -/
def searchProjects (query : String) (db : Db) : List ProjectWithBoolean :=
  (List.insertionSort updGE
    (db.rows.filter fun p =>
      likeMatch (likePattern query) (lc p.name) ||
      likeMatch (likePattern query) (lc p.description))).map convertToBoolean

/-- Model of `getProjectsByCategory`: `WHERE category = ? ORDER BY updatedAt DESC`. -/
def getProjectsByCategory (category : String) (db : Db) : List ProjectWithBoolean :=
  (List.insertionSort updGE
    (db.rows.filter fun p => p.category == category)).map convertToBoolean

/-- Repository operations a client can issue, plus clock advance. -/
inductive Op where
  | tick (dt : Nat)
  | create (input : CreateProjectInput)
  | update (input : UpdateProjectInput)
  | del (id : Nat)

/-- State reached after one operation (a failed statement leaves the
store unchanged). -/
def stepOp (op : Op) (db : Db) : Db :=
  match op with
  | .tick dt => tick dt db
  | .create input =>
    match createProject input db with
    | .ok (_, db') => db'
    | .error _ => db
  | .update input =>
    match updateProject input db with
    | .ok (_, db') => db'
    | .error _ => db
  | .del id => (deleteProject id db).2

/-- Run a sequence of operations. -/
def run (ops : List Op) (db : Db) : Db := ops.foldl (fun d op => stepOp op d) db

/-- The freshly initialized store: empty table, ids from 1. -/
def initDb (t0 : Nat) : Db := { rows := [], nextId := 1, now := t0 }

/-- Store sanity invariant: timestamps are ordered and bounded by the
clock, ids are store-assigned (below `nextId`) and satisfy the schema
`CHECK` constraints. -/
def Inv (db : Db) : Prop :=
  ∀ p ∈ db.rows, p.createdAt ≤ p.updatedAt ∧ p.updatedAt ≤ db.now ∧
    p.id < db.nextId ∧ validCategory p.category = true ∧
    (p.isPublic = 0 ∨ p.isPublic = 1)

end SqliteDb

namespace PgDb

open ProjectRepo

/-- A row of the PostgreSQL `projects` table: native boolean
`is_public`, `TIMESTAMPTZ` timestamps (camel-cased by the driver). -/
structure Project where
  id : Nat
  name : String
  description : String
  category : String
  isPublic : Bool
  createdAt : Nat
  updatedAt : Nat
deriving DecidableEq

/-- The store: table rows in insertion order, the `SERIAL` sequence
value, and the clock read by `NOW()`. -/
structure Db where
  rows : List Project
  nextId : Nat
  now : Nat
deriving DecidableEq

/-- Advance the wall clock between repository calls. -/
def tick (dt : Nat) (db : Db) : Db := { db with now := db.now + dt }

/-- Descending `updated_at` order used by `ORDER BY updated_at DESC`. -/
def updGE (a b : Project) : Prop := b.updatedAt ≤ a.updatedAt

instance : DecidableRel updGE := fun a b =>
  inferInstanceAs (Decidable (b.updatedAt ≤ a.updatedAt))

instance : IsTotal Project updGE := ⟨fun a b => Nat.le_total b.updatedAt a.updatedAt⟩

instance : IsTrans Project updGE := ⟨fun _ _ _ hab hbc => Nat.le_trans hbc hab⟩

/-- Model of `SELECT * FROM projects ORDER BY updated_at DESC`. -/
def getAllProjects (db : Db) : List Project :=
  List.insertionSort updGE db.rows

/-- Model of `SELECT * FROM projects WHERE id = ${id}`, destructured to the
first row, `?? null` when absent. -/
def getProjectById (id : Nat) (db : Db) : Option Project :=
  db.rows.find? fun p => p.id == id

/-- The row built by the `INSERT`: server-assigned id, both timestamp
columns filled by their `NOW()` defaults, native boolean kept as is. -/
def insertedRow (input : CreateProjectInput) (db : Db) : Project :=
  { id := db.nextId, name := input.name, description := input.description,
    category := input.category, isPublic := input.isPublic,
    createdAt := db.now, updatedAt := db.now }

/-- Model of `createProject`: single `INSERT ... RETURNING *` (the category
`CHECK` is enforced on the new row). -/
def createProject (input : CreateProjectInput) (db : Db) :
    Except DbError (Project × Db) :=
  if !validCategory input.category then .error .storage
  else
    .ok (insertedRow input db,
         { db with rows := db.rows ++ [insertedRow input db],
                   nextId := db.nextId + 1 })

/-- Effect of the dynamic `SET` on one matched row: each supplied field
is overwritten and `updated_at = NOW()` is set. -/
def applyRow (input : UpdateProjectInput) (now : Nat) (p : Project) : Project :=
  { p with
    name := input.name.getD p.name,
    description := input.description.getD p.description,
    category := input.category.getD p.category,
    isPublic := input.isPublic.getD p.isPublic,
    updatedAt := now }

/-- A row violates the table's category `CHECK` constraint. -/
def rowViolates (p : Project) : Bool := !validCategory p.category

/-- Model of `updateProject`: builds the `updates` object from the supplied
fields plus `updated_at = NOW()`; when the object holds only the
timestamp (`Object.keys(updates).length === 1`) it performs NO write and
returns `getProjectById`; otherwise it runs
`UPDATE ... RETURNING *` (re-checking the `CHECK` on matched rows). -/
def updateProject (input : UpdateProjectInput) (db : Db) :
    Except DbError (Option Project × Db) :=
  let keysLen := suppliedCount input + 1
  if keysLen == 1 then .ok (getProjectById input.id db, db)
  else if db.rows.any fun p => p.id == input.id && rowViolates (applyRow input db.now p) then
    .error .storage
  else
    let newRows := db.rows.map fun p => if p.id == input.id then applyRow input db.now p else p
    .ok (newRows.find? fun p => p.id == input.id, { db with rows := newRows })

/-- Model of `deleteProject`: `DELETE FROM projects WHERE id = ${id}`, returning
`result.count > 0`. -/
def deleteProject (id : Nat) (db : Db) : Bool × Db :=
  let remaining := db.rows.filter fun p => !(p.id == id)
  (remaining.length < db.rows.length, { db with rows := remaining })

/-- Model of `searchProjects`: `WHERE name ILIKE ${searchTerm} OR description
ILIKE ${searchTerm}` with `` searchTerm = `%${query}%` ``,
`ORDER BY updated_at DESC`. -/
def searchProjects (query : String) (db : Db) : List Project :=
  List.insertionSort updGE
    (db.rows.filter fun p =>
      likeMatch (likePattern query) (lc p.name) ||
      likeMatch (likePattern query) (lc p.description))

/-- Model of `getProjectsByCategory`: `WHERE category = ${category}
ORDER BY updated_at DESC`. -/
def getProjectsByCategory (category : String) (db : Db) : List Project :=
  List.insertionSort updGE (db.rows.filter fun p => p.category == category)

/-- Repository operations a client can issue, plus clock advance. -/
inductive Op where
  | tick (dt : Nat)
  | create (input : CreateProjectInput)
  | update (input : UpdateProjectInput)
  | del (id : Nat)

/-- State reached after one operation (a failed statement leaves the
store unchanged). -/
def stepOp (op : Op) (db : Db) : Db :=
  match op with
  | .tick dt => tick dt db
  | .create input =>
    match createProject input db with
    | .ok (_, db') => db'
    | .error _ => db
  | .update input =>
    match updateProject input db with
    | .ok (_, db') => db'
    | .error _ => db
  | .del id => (deleteProject id db).2

/-- Run a sequence of operations. -/
def run (ops : List Op) (db : Db) : Db := ops.foldl (fun d op => stepOp op d) db

/-- The freshly initialized store: empty table, ids from 1. -/
def initDb (t0 : Nat) : Db := { rows := [], nextId := 1, now := t0 }

/-- Store sanity invariant: timestamps ordered and bounded by the clock,
ids store-assigned, categories satisfying the `CHECK`. -/
def Inv (db : Db) : Prop :=
  ∀ p ∈ db.rows, p.createdAt ≤ p.updatedAt ∧ p.updatedAt ≤ db.now ∧
    p.id < db.nextId ∧ validCategory p.category = true

end PgDb

namespace Actions

open ProjectRepo

/-- The form payload of a submission: field name/value pairs.
`fdGet` models `formData.get(key)`: the first value for the key, or
`null` (`none`) when the field is absent. -/
def fdGet (form : List (String × String)) (key : String) : Option String :=
  (form.find? fun kv => kv.1 == key).map fun kv => kv.2

/-- The `|| undefined` coercion applied to `formData.get(...)` in the
update action: `null` and the empty string both become `undefined`. -/
def orUndef (o : Option String) : Option String :=
  match o with
  | some s => if s = "" then none else some s
  | none => none

/-- The `rawData` object built by the update server action. -/
structure RawUpdateData where
  name : Option String
  description : Option String
  category : Option String
  isPublic : Bool
deriving DecidableEq

/-- The `rawData` extraction of the update action: string fields pass
through `|| undefined`, and `isPublic` is the boolean
`formData.get('isPublic') === 'on' || formData.get('isPublic') === 'true'`. -/
def extractUpdateRaw (form : List (String × String)) : RawUpdateData :=
  { name := orUndef (fdGet form "name"),
    description := orUndef (fdGet form "description"),
    category := orUndef (fdGet form "category"),
    isPublic := fdGet form "isPublic" == some "on" || fdGet form "isPublic" == some "true" }

/-- Zod `z.string().min(lo).max(hi)` (bounds inclusive, as in Zod). -/
def zStr (lo hi : Nat) (s : String) : Bool := lo ≤ s.length && s.length ≤ hi

/-- Zod optional bounded string: absent passes, present must be in
bounds; `none` result means validation failure. -/
def zStrOpt (lo hi : Nat) (o : Option String) : Option (Option String) :=
  match o with
  | none => some none
  | some s => if zStr lo hi s then some (some s) else none

/-- Zod optional category enum. -/
def zCatOpt (o : Option String) : Option (Option String) :=
  match o with
  | none => some none
  | some c => if validCategory c then some (some c) else none

/-- The validated fields of `updateProjectSchema` (without the id, which
the action supplies separately). -/
structure UpdateFields where
  name : Option String
  description : Option String
  category : Option String
  isPublic : Option Bool
deriving DecidableEq

/-- Model of `updateProjectSchema.safeParse`: name 3-100 chars when present,
description 10–500 chars when present, category in the enum when
present, `isPublic` an optional boolean (the action always supplies a
boolean, which passes through). -/
def updateProjectSchemaParse (raw : RawUpdateData) : Option UpdateFields :=
  match zStrOpt 3 100 raw.name, zStrOpt 10 500 raw.description, zCatOpt raw.category with
  | some n, some d, some c =>
    some { name := n, description := d, category := c, isPublic := some raw.isPublic }
  | _, _, _ => none

/-- The `rawData` object built by the create server action (string
fields come straight from `formData.get`, which may be `null`). -/
structure RawCreateData where
  name : Option String
  description : Option String
  category : Option String
  isPublic : Option Bool
deriving DecidableEq

/-- Model of `createProjectSchema.safeParse`: required name (effective bounds
3–100 after `min(1).min(3).max(100)`), required description (10–500),
required category in the enum, and `isPublic` boolean with
`.default(false)` when absent. -/
def createProjectSchemaParse (raw : RawCreateData) : Option CreateProjectInput :=
  match raw.name, raw.description, raw.category with
  | some n, some d, some c =>
    if zStr 3 100 n && zStr 10 500 d && validCategory c then
      some { name := n, description := d, category := c,
             isPublic := raw.isPublic.getD false }
    else none
  | _, _, _ => none

/-- The repository input `{ id, ...validationResult.data }` the update
action passes to `dbUpdateProject`, or `none` when validation failed
(the action then returns the error state without touching the store). -/
def actionUpdateToRepoInput (id : Nat) (form : List (String × String)) :
    Option UpdateProjectInput :=
  (updateProjectSchemaParse (extractUpdateRaw form)).map fun d =>
    { id := id, name := d.name, description := d.description,
      category := d.category, isPublic := d.isPublic }

end Actions

namespace ProjectRepo

theorem charToNatOfNat (n : Nat) (h : n.isValidChar) : (Char.ofNat n).toNat = n := by
  unfold Char.ofNat
  rw [dif_pos h]
  unfold Char.ofNatAux Char.toNat
  simp [UInt32.toNat, UInt32.ofNat]

theorem toLower_ne_wild (c : Char) (h1 : ¬c = '%') (h2 : ¬c = '_') :
    ¬c.toLower = '%' ∧ ¬c.toLower = '_' := by
  show ¬(if c.toNat ≥ 65 ∧ c.toNat ≤ 90 then Char.ofNat (c.toNat + 32) else c) = '%' ∧
       ¬(if c.toNat ≥ 65 ∧ c.toNat ≤ 90 then Char.ofNat (c.toNat + 32) else c) = '_'
  by_cases hc : c.toNat ≥ 65 ∧ c.toNat ≤ 90
  · rw [if_pos hc]
    have hv : (c.toNat + 32).isValidChar := Or.inl (by omega)
    have ht := charToNatOfNat (c.toNat + 32) hv
    have hp : ('%').toNat = 37 := by decide
    have hu : ('_').toNat = 95 := by decide
    constructor <;> intro heq <;> rw [heq] at ht
    · rw [hp] at ht; omega
    · rw [hu] at ht; omega
  · rw [if_neg hc]
    exact ⟨h1, h2⟩

theorem likeMatch_nil_pat (s : List Char) : likeMatch [] s = s.isEmpty := by
  cases s <;> simp [likeMatch]

theorem likeMatch_pct_nil (ps : List Char) : likeMatch ('%' :: ps) [] = likeMatch ps [] := by
  simp [likeMatch, tryTails]

theorem likeMatch_pct_cons (ps : List Char) (c : Char) (s' : List Char) :
    likeMatch ('%' :: ps) (c :: s') = (likeMatch ps (c :: s') || likeMatch ('%' :: ps) s') := by
  rfl

theorem likeMatch_lit_nil (a : Char) (ps : List Char) (h : ¬a = '%') :
    likeMatch (a :: ps) [] = false := by
  rw [likeMatch]
  simp [h]

theorem likeMatch_lit_cons (a : Char) (ps : List Char) (c : Char) (s' : List Char)
    (h1 : ¬a = '%') (h2 : ¬a = '_') :
    likeMatch (a :: ps) (c :: s') = (a == c && likeMatch ps s') := by
  rw [likeMatch]
  simp [h1, h2]

theorem likeMatch_pct_always (s : List Char) : likeMatch ['%'] s = true := by
  induction s with
  | nil => rw [likeMatch_pct_nil, likeMatch_nil_pat]; rfl
  | cons c s' ih => rw [likeMatch_pct_cons, ih, Bool.or_true]

end ProjectRepo

namespace ProjectRepo

theorem likeMatch_pct_iff (ps s : List Char) :
    likeMatch ('%' :: ps) s = true ↔ ∃ s₁ s₂, s = s₁ ++ s₂ ∧ likeMatch ps s₂ = true := by
  induction s with
  | nil =>
    rw [likeMatch_pct_nil]
    constructor
    · intro h; exact ⟨[], [], rfl, h⟩
    · rintro ⟨s₁, s₂, heq, hm⟩
      obtain ⟨h1, h2⟩ := List.append_eq_nil.mp heq.symm
      rw [h2] at hm; exact hm
  | cons c s' ih =>
    rw [likeMatch_pct_cons, Bool.or_eq_true]
    constructor
    · rintro (h | h)
      · exact ⟨[], c :: s', rfl, h⟩
      · obtain ⟨s₁, s₂, heq, hm⟩ := ih.mp h
        exact ⟨c :: s₁, s₂, by rw [heq]; rfl, hm⟩
    · rintro ⟨s₁, s₂, heq, hm⟩
      cases s₁ with
      | nil =>
        left
        rw [List.nil_append] at heq
        rw [← heq] at hm; exact hm
      | cons a s₁' =>
        right
        apply ih.mpr
        rw [List.cons_append] at heq
        exact ⟨s₁', s₂, (List.cons_eq_cons.mp heq).2, hm⟩

theorem segStarts_nil_right (q : List Char) : segStarts q [] = q.isEmpty := by
  cases q <;> rfl

theorem segStarts_iff (q : List Char) : ∀ s, segStarts q s = true ↔ ∃ s₂, s = q ++ s₂ := by
  induction q with
  | nil => intro s; simp [segStarts]
  | cons a q ih =>
    intro s
    cases s with
    | nil =>
      simp only [segStarts_nil_right]
      constructor
      · intro h; cases h
      · rintro ⟨s₂, heq⟩; cases heq
    | cons b s' =>
      show (a == b && segStarts q s') = true ↔ _
      rw [Bool.and_eq_true, beq_iff_eq, ih s']
      constructor
      · rintro ⟨rfl, s₂, rfl⟩; exact ⟨s₂, rfl⟩
      · rintro ⟨s₂, heq⟩
        obtain ⟨h1, h2⟩ := List.cons_eq_cons.mp heq
        exact ⟨h1.symm, s₂, h2⟩

theorem segIn_iff (q s : List Char) :
    segIn q s = true ↔ ∃ s₁ s₂, s = s₁ ++ s₂ ∧ segStarts q s₂ = true := by
  induction s with
  | nil =>
    show q.isEmpty = true ↔ _
    constructor
    · intro h; exact ⟨[], [], rfl, by rw [segStarts_nil_right]; exact h⟩
    · rintro ⟨s₁, s₂, heq, hm⟩
      obtain ⟨h1, h2⟩ := List.append_eq_nil.mp heq.symm
      rw [h2, segStarts_nil_right] at hm; exact hm
  | cons c s' ih =>
    show (segStarts q (c :: s') || segIn q s') = true ↔ _
    rw [Bool.or_eq_true, ih]
    constructor
    · rintro (h | ⟨s₁, s₂, heq, hm⟩)
      · exact ⟨[], c :: s', rfl, h⟩
      · exact ⟨c :: s₁, s₂, by rw [heq]; rfl, hm⟩
    · rintro ⟨s₁, s₂, heq, hm⟩
      cases s₁ with
      | nil =>
        left; rw [List.nil_append] at heq; rw [← heq] at hm; exact hm
      | cons a s₁' =>
        right
        rw [List.cons_append] at heq
        exact ⟨s₁', s₂, (List.cons_eq_cons.mp heq).2, hm⟩

theorem likeMatch_litStarts (q : List Char) (hq : ∀ c ∈ q, ¬c = '%' ∧ ¬c = '_') :
    ∀ s, likeMatch (q ++ ['%']) s = segStarts q s := by
  induction q with
  | nil =>
    intro s
    rw [List.nil_append, likeMatch_pct_always]
    rfl
  | cons a q ih =>
    intro s
    obtain ⟨ha1, ha2⟩ := hq a (List.mem_cons_self a q)
    have hq' : ∀ c ∈ q, ¬c = '%' ∧ ¬c = '_' := fun c hc => hq c (List.mem_cons_of_mem a hc)
    cases s with
    | nil =>
      rw [List.cons_append, likeMatch_lit_nil _ _ ha1]
      rfl
    | cons b s' =>
      rw [List.cons_append, likeMatch_lit_cons _ _ _ _ ha1 ha2, ih hq' s']
      rfl

theorem likeMatch_eq_segIn (q s : List Char) (hq : ∀ c ∈ q, ¬c = '%' ∧ ¬c = '_') :
    likeMatch ('%' :: (q ++ ['%'])) s = segIn q s := by
  have hbool : ∀ x y : Bool, (x = true ↔ y = true) → x = y := by decide
  apply hbool
  rw [likeMatch_pct_iff, segIn_iff]
  constructor
  · rintro ⟨s₁, s₂, heq, hm⟩
    rw [likeMatch_litStarts q hq s₂] at hm
    exact ⟨s₁, s₂, heq, hm⟩
  · rintro ⟨s₁, s₂, heq, hm⟩
    rw [← likeMatch_litStarts q hq s₂] at hm
    exact ⟨s₁, s₂, heq, hm⟩

theorem lc_noWild (query : String) (h : noWildcards query = true) :
    ∀ c ∈ lc query, ¬c = '%' ∧ ¬c = '_' := by
  intro c hc
  obtain ⟨d, hd, rfl⟩ := List.mem_map.mp hc
  have hall := List.all_eq_true.mp h d hd
  rw [Bool.and_eq_true, Bool.not_eq_true', Bool.not_eq_true'] at hall
  obtain ⟨h1, h2⟩ := hall
  exact toLower_ne_wild d (by simpa using h1) (by simpa using h2)

theorem likePattern_match_eq (query : String) (h : noWildcards query = true) (s : String) :
    likeMatch (likePattern query) (lc s) = containsCI query s := by
  show likeMatch ('%' :: (lc query ++ ['%'])) (lc s) = segIn (lc query) (lc s)
  exact likeMatch_eq_segIn (lc query) (lc s) (lc_noWild query h)

end ProjectRepo

namespace ProjectRepo

theorem filterNot_length_lt_iff {α : Type} (pred : α → Bool) (l : List α) :
    (l.filter fun a => !pred a).length < l.length ↔ ∃ a ∈ l, pred a = true := by
  induction l with
  | nil => simp
  | cons a l ih =>
    by_cases h : pred a
    · simp only [h, List.filter_cons, Bool.not_true, List.length_cons]
      constructor
      · intro _; exact ⟨a, List.mem_cons_self a l, h⟩
      · intro _
        exact Nat.lt_succ_of_le (by simpa using List.length_filter_le (fun a => !pred a) l)
    · simp only [List.filter_cons, h, Bool.not_false, List.length_cons, if_true]
      rw [Nat.succ_lt_succ_iff, ih]
      constructor
      · rintro ⟨x, hx, hpx⟩; exact ⟨x, List.mem_cons_of_mem a hx, hpx⟩
      · rintro ⟨x, hx, hpx⟩
        rcases List.mem_cons.mp hx with rfl | hx'
        · exact absurd hpx (by simp [h])
        · exact ⟨x, hx', hpx⟩

theorem mem_filterNot {α : Type} (pred : α → Bool) (l : List α) (x : α) :
    x ∈ l.filter (fun a => !pred a) ↔ x ∈ l ∧ pred x = false := by
  rw [List.mem_filter, Bool.not_eq_true']

end ProjectRepo

/-- C4: delete(id) returns true exactly when a row with that id existed
(and that row is removed), false when nothing matched; a repeated delete
of the same id returns false; deletion of an absent id is an ordinary
false result, not a failure. Holds in both driver variants. -/
theorem claim_C4_delete_semantics :
    (∀ (db : SqliteDb.Db) (id : Nat),
      ((SqliteDb.deleteProject id db).1 = true ↔ ∃ p ∈ db.rows, p.id = id) ∧
      (∀ p, p ∈ (SqliteDb.deleteProject id db).2.rows ↔ p ∈ db.rows ∧ ¬p.id = id) ∧
      (SqliteDb.deleteProject id (SqliteDb.deleteProject id db).2).1 = false) ∧
    (∀ (db : PgDb.Db) (id : Nat),
      ((PgDb.deleteProject id db).1 = true ↔ ∃ p ∈ db.rows, p.id = id) ∧
      (∀ p, p ∈ (PgDb.deleteProject id db).2.rows ↔ p ∈ db.rows ∧ ¬p.id = id) ∧
      (PgDb.deleteProject id (PgDb.deleteProject id db).2).1 = false) := by
  constructor
  · intro db id
    refine ⟨?_, ?_, ?_⟩
    · rw [show (SqliteDb.deleteProject id db).1 = true ↔
          (db.rows.filter fun p => !(p.id == id)).length < db.rows.length from
          by simp [SqliteDb.deleteProject]]
      rw [ProjectRepo.filterNot_length_lt_iff]
      simp
    · intro p
      show p ∈ db.rows.filter (fun p => !(p.id == id)) ↔ _
      rw [ProjectRepo.mem_filterNot]
      simp
    · have h2 : ¬((SqliteDb.deleteProject id (SqliteDb.deleteProject id db).2).1 = true) := by
        rw [show (SqliteDb.deleteProject id (SqliteDb.deleteProject id db).2).1 = true ↔
            ((SqliteDb.deleteProject id db).2.rows.filter fun p => !(p.id == id)).length <
              (SqliteDb.deleteProject id db).2.rows.length from
            by simp [SqliteDb.deleteProject]]
        rw [ProjectRepo.filterNot_length_lt_iff]
        rintro ⟨p, hp, hpid⟩
        have := (ProjectRepo.mem_filterNot _ _ p).mp hp
        rw [this.2] at hpid
        cases hpid
      exact Bool.not_eq_true _ ▸ (Bool.eq_false_iff.mpr (fun hh => h2 hh))
  · intro db id
    refine ⟨?_, ?_, ?_⟩
    · rw [show (PgDb.deleteProject id db).1 = true ↔
          (db.rows.filter fun p => !(p.id == id)).length < db.rows.length from
          by simp [PgDb.deleteProject]]
      rw [ProjectRepo.filterNot_length_lt_iff]
      simp
    · intro p
      show p ∈ db.rows.filter (fun p => !(p.id == id)) ↔ _
      rw [ProjectRepo.mem_filterNot]
      simp
    · have h2 : ¬((PgDb.deleteProject id (PgDb.deleteProject id db).2).1 = true) := by
        rw [show (PgDb.deleteProject id (PgDb.deleteProject id db).2).1 = true ↔
            ((PgDb.deleteProject id db).2.rows.filter fun p => !(p.id == id)).length <
              (PgDb.deleteProject id db).2.rows.length from
            by simp [PgDb.deleteProject]]
        rw [ProjectRepo.filterNot_length_lt_iff]
        rintro ⟨p, hp, hpid⟩
        have := (ProjectRepo.mem_filterNot _ _ p).mp hp
        rw [this.2] at hpid
        cases hpid
      exact Bool.not_eq_true _ ▸ (Bool.eq_false_iff.mpr (fun hh => h2 hh))

/-- C6: list() returns all projects (a permutation of the store's rows)
sorted by updatedAt descending, deterministically, and returns the empty
sequence on an empty store. Holds in both driver variants. -/
theorem claim_C6_list_ordering :
    (∀ db : SqliteDb.Db,
      (SqliteDb.getAllProjects db).Pairwise (fun a b => b.updatedAt ≤ a.updatedAt) ∧
      (SqliteDb.getAllProjects db).Perm (db.rows.map SqliteDb.convertToBoolean) ∧
      (db.rows = [] → SqliteDb.getAllProjects db = [])) ∧
    (∀ db : PgDb.Db,
      (PgDb.getAllProjects db).Pairwise (fun a b => b.updatedAt ≤ a.updatedAt) ∧
      (PgDb.getAllProjects db).Perm db.rows ∧
      (db.rows = [] → PgDb.getAllProjects db = [])) := by
  constructor
  · intro db
    refine ⟨?_, ?_, ?_⟩
    · have hs : (List.insertionSort SqliteDb.updGE db.rows).Pairwise SqliteDb.updGE :=
        List.sorted_insertionSort SqliteDb.updGE db.rows
      exact List.Pairwise.map _ (fun a b hab => hab) hs
    · exact (List.perm_insertionSort SqliteDb.updGE db.rows).map _
    · intro h
      show (List.insertionSort SqliteDb.updGE db.rows).map _ = []
      rw [h]
      rfl
  · intro db
    refine ⟨?_, ?_, ?_⟩
    · exact List.sorted_insertionSort PgDb.updGE db.rows
    · exact List.perm_insertionSort PgDb.updGE db.rows
    · intro h
      show List.insertionSort PgDb.updGE db.rows = []
      rw [h]
      rfl

namespace SqliteDb

open ProjectRepo

theorem createProject_ok (input : CreateProjectInput) (db : Db) (p : ProjectWithBoolean)
    (db' : Db) (h : createProject input db = .ok (p, db')) :
    validCategory input.category = true ∧
    db' = { db with rows := db.rows ++ [insertedRow input db], nextId := db.nextId + 1 } := by
  unfold createProject at h
  split at h
  · cases h
  · next hne =>
    have hv : validCategory input.category = true := by
      rw [Bool.not_eq_true'] at hne
      simpa using hne
    have h2 : (match getProjectById db.nextId
        ({ rows := db.rows ++ [insertedRow input db], nextId := db.nextId + 1, now := db.now } : Db) with
      | some q => Except.ok (q,
          ({ rows := db.rows ++ [insertedRow input db], nextId := db.nextId + 1, now := db.now } : Db))
      | none => Except.error (DbError.app "Failed to create project")) =
        (Except.ok (p, db') : Except DbError (ProjectWithBoolean × Db)) := h
    split at h2
    · cases h2; exact ⟨hv, rfl⟩
    · cases h2

theorem createProject_err (input : CreateProjectInput) (db : Db)
    (h : validCategory input.category = false) :
    createProject input db = .error .storage := by
  unfold createProject
  rw [if_pos (by simp [h])]

theorem updateProject_ok (input : UpdateProjectInput) (db : Db)
    (r : Option ProjectWithBoolean) (db' : Db)
    (h : updateProject input db = .ok (r, db')) :
    (db.rows.any fun p => p.id == input.id && rowViolates (applyRow input db.now p)) = false ∧
    db' = { db with
      rows := db.rows.map (fun p => if p.id == input.id then applyRow input db.now p else p) } ∧
    r = getProjectById input.id db' := by
  unfold updateProject at h
  have h2 : (if ((suppliedCount input + 1) == 0) = true
      then (Except.ok (getProjectById input.id db, db) :
        Except DbError (Option ProjectWithBoolean × Db))
      else if (db.rows.any fun p => p.id == input.id && rowViolates (applyRow input db.now p)) = true
        then Except.error DbError.storage
        else Except.ok (getProjectById input.id
            ({ db with
               rows := db.rows.map (fun p => if p.id == input.id then applyRow input db.now p else p) } : Db),
          ({ db with
             rows := db.rows.map (fun p => if p.id == input.id then applyRow input db.now p else p) } : Db))) =
      Except.ok (r, db') := h
  rw [if_neg (by simp)] at h2
  split at h2
  · cases h2
  · next hany =>
    cases h2
    refine ⟨?_, rfl, rfl⟩
    simp only [Bool.not_eq_true] at hany
    exact hany

theorem updateProject_err_invalid (input : UpdateProjectInput) (db : Db) (c : String)
    (p : Project) (hp : p ∈ db.rows) (hid : p.id = input.id) (hc : input.category = some c)
    (hvc : validCategory c = false) :
    updateProject input db = .error .storage := by
  unfold updateProject
  have hany : (db.rows.any fun q => q.id == input.id && rowViolates (applyRow input db.now q)) = true := by
    rw [List.any_eq_true]
    refine ⟨p, hp, ?_⟩
    rw [Bool.and_eq_true, beq_iff_eq]
    refine ⟨hid, ?_⟩
    unfold rowViolates applyRow
    simp [hc, hvc]
  rw [if_neg (by simp), if_pos hany]

end SqliteDb

namespace PgDb

open ProjectRepo

theorem createProject_ok_pg (input : CreateProjectInput) (db : Db) (p : Project)
    (db' : Db) (h : createProject input db = .ok (p, db')) :
    validCategory input.category = true ∧ p = insertedRow input db ∧
    db' = { db with rows := db.rows ++ [insertedRow input db], nextId := db.nextId + 1 } := by
  unfold createProject at h
  split at h
  · cases h
  · next hne =>
    cases h
    have hv : validCategory input.category = true := by
      rw [Bool.not_eq_true'] at hne
      simpa using hne
    exact ⟨hv, rfl, rfl⟩

theorem createProject_err_pg (input : CreateProjectInput) (db : Db)
    (h : validCategory input.category = false) :
    createProject input db = .error .storage := by
  unfold createProject
  rw [if_pos (by simp [h])]

theorem suppliedCount_pos_of_cat_pg (input : UpdateProjectInput) (c : String)
    (hc : input.category = some c) : ((ProjectRepo.suppliedCount input + 1) == 1) = false := by
  unfold ProjectRepo.suppliedCount
  rw [hc]
  simp [Option.isSome]

theorem updateProject_ok_pg (input : UpdateProjectInput) (db : Db)
    (r : Option Project) (db' : Db)
    (h : updateProject input db = .ok (r, db')) :
    (suppliedCount input = 0 ∧ db' = db ∧ r = getProjectById input.id db) ∨
    ((db.rows.any fun p => p.id == input.id && rowViolates (applyRow input db.now p)) = false ∧
     db' = { db with
       rows := db.rows.map (fun p => if p.id == input.id then applyRow input db.now p else p) } ∧
     r = (db'.rows.find? fun p => p.id == input.id)) := by
  unfold updateProject at h
  have h2 : (if ((suppliedCount input + 1) == 1) = true
      then (Except.ok (getProjectById input.id db, db) : Except DbError (Option Project × Db))
      else if (db.rows.any fun p => p.id == input.id && rowViolates (applyRow input db.now p)) = true
        then Except.error DbError.storage
        else Except.ok
          ((db.rows.map (fun p => if p.id == input.id then applyRow input db.now p else p)).find?
             (fun p => p.id == input.id),
           ({ db with
              rows := db.rows.map (fun p => if p.id == input.id then applyRow input db.now p else p) } : Db))) =
      Except.ok (r, db') := h
  split at h2
  · next hk =>
    cases h2
    left
    refine ⟨?_, rfl, rfl⟩
    simpa using hk
  · split at h2
    · cases h2
    · next hany =>
      cases h2
      right
      refine ⟨?_, rfl, rfl⟩
      simp only [Bool.not_eq_true] at hany
      exact hany

theorem updateProject_err_invalid_pg (input : UpdateProjectInput) (db : Db) (c : String)
    (p : Project) (hp : p ∈ db.rows) (hid : p.id = input.id) (hc : input.category = some c)
    (hvc : validCategory c = false) :
    updateProject input db = .error .storage := by
  unfold updateProject
  have hany : (db.rows.any fun q => q.id == input.id && rowViolates (applyRow input db.now q)) = true := by
    rw [List.any_eq_true]
    refine ⟨p, hp, ?_⟩
    rw [Bool.and_eq_true, beq_iff_eq]
    refine ⟨hid, ?_⟩
    unfold rowViolates applyRow
    simp [hc, hvc]
  rw [if_neg (by rw [suppliedCount_pos_of_cat_pg input c hc]; simp), if_pos hany]

end PgDb

namespace SqliteDb

open ProjectRepo

theorem inv_init (t0 : Nat) : Inv (initDb t0) := by
  intro p hp
  exact absurd hp (List.not_mem_nil p)

theorem inv_step (op : Op) (db : Db) (hInv : Inv db) : Inv (stepOp op db) := by
  cases op with
  | tick dt =>
    intro p hp
    obtain ⟨h1, h2, h3, h4, h5⟩ := hInv p hp
    exact ⟨h1, Nat.le_trans h2 (Nat.le_add_right _ _), h3, h4, h5⟩
  | create input =>
    show Inv (match createProject input db with
      | .ok (_, db') => db'
      | .error _ => db)
    cases hcr : createProject input db with
    | error e => exact hInv
    | ok res =>
      obtain ⟨q, db'⟩ := res
      obtain ⟨hv, hdb'⟩ := createProject_ok input db q db' hcr
      subst hdb'
      intro p hp
      rcases List.mem_append.mp hp with hold | hnew
      · obtain ⟨h1, h2, h3, h4, h5⟩ := hInv p hold
        exact ⟨h1, h2, Nat.lt_succ_of_lt h3, h4, h5⟩
      · have hpe : p = insertedRow input db := by simpa using hnew
        subst hpe
        refine ⟨Nat.le_refl _, Nat.le_refl _, Nat.lt_succ_self _, hv, ?_⟩
        unfold insertedRow
        cases input.isPublic <;> simp
  | update input =>
    show Inv (match updateProject input db with
      | .ok (_, db') => db'
      | .error _ => db)
    cases hup : updateProject input db with
    | error e => exact hInv
    | ok res =>
      obtain ⟨r, db'⟩ := res
      obtain ⟨hany, hdb', -⟩ := updateProject_ok input db r db' hup
      subst hdb'
      intro p' hp'
      obtain ⟨p, hp, rfl⟩ := List.mem_map.mp hp'
      by_cases hid : (p.id == input.id) = true
      · rw [if_pos hid]
        obtain ⟨h1, h2, h3, h4, h5⟩ := hInv p hp
        have hnv := List.any_eq_false.mp hany p hp
        rw [hid, Bool.true_and] at hnv
        rw [Bool.not_eq_true] at hnv
        unfold rowViolates at hnv
        rw [Bool.or_eq_false_iff, Bool.not_eq_false', Bool.not_eq_false'] at hnv
        obtain ⟨hcat, hpub⟩ := hnv
        refine ⟨Nat.le_trans h1 h2, Nat.le_refl _, h3, hcat, ?_⟩
        rcases Bool.or_eq_true_iff.mp hpub with h0 | h1'
        · left; exact beq_iff_eq.mp h0
        · right; exact beq_iff_eq.mp h1'
      · rw [if_neg hid]
        exact hInv p hp
  | del id =>
    intro p hp
    have hp' : p ∈ db.rows.filter (fun q => !(q.id == id)) := hp
    have := (ProjectRepo.mem_filterNot (fun q => q.id == id) db.rows p).mp hp'
    exact hInv p this.1

theorem inv_run_from (ops : List Op) : ∀ db : Db, Inv db → Inv (run ops db) := by
  induction ops with
  | nil => intro db h; exact h
  | cons op ops ih =>
    intro db h
    exact ih (stepOp op db) (inv_step op db h)

theorem inv_run (ops : List Op) (t0 : Nat) : Inv (run ops (initDb t0)) :=
  inv_run_from ops (initDb t0) (inv_init t0)

end SqliteDb

namespace PgDb

open ProjectRepo

theorem inv_init_pg (t0 : Nat) : Inv (initDb t0) := by
  intro p hp
  exact absurd hp (List.not_mem_nil p)

theorem inv_step_pg (op : Op) (db : Db) (hInv : Inv db) : Inv (stepOp op db) := by
  cases op with
  | tick dt =>
    intro p hp
    obtain ⟨h1, h2, h3, h4⟩ := hInv p hp
    exact ⟨h1, Nat.le_trans h2 (Nat.le_add_right _ _), h3, h4⟩
  | create input =>
    show Inv (match createProject input db with
      | .ok (_, db') => db'
      | .error _ => db)
    cases hcr : createProject input db with
    | error e => exact hInv
    | ok res =>
      obtain ⟨q, db'⟩ := res
      obtain ⟨hv, -, hdb'⟩ := createProject_ok_pg input db q db' hcr
      subst hdb'
      intro p hp
      rcases List.mem_append.mp hp with hold | hnew
      · obtain ⟨h1, h2, h3, h4⟩ := hInv p hold
        exact ⟨h1, h2, Nat.lt_succ_of_lt h3, h4⟩
      · have hpe : p = insertedRow input db := by simpa using hnew
        subst hpe
        exact ⟨Nat.le_refl _, Nat.le_refl _, Nat.lt_succ_self _, hv⟩
  | update input =>
    show Inv (match updateProject input db with
      | .ok (_, db') => db'
      | .error _ => db)
    cases hup : updateProject input db with
    | error e => exact hInv
    | ok res =>
      obtain ⟨r, db'⟩ := res
      rcases updateProject_ok_pg input db r db' hup with ⟨-, hdb', -⟩ | ⟨hany, hdb', -⟩
      · subst hdb'; exact hInv
      · subst hdb'
        intro p' hp'
        obtain ⟨p, hp, rfl⟩ := List.mem_map.mp hp'
        by_cases hid : (p.id == input.id) = true
        · rw [if_pos hid]
          obtain ⟨h1, h2, h3, h4⟩ := hInv p hp
          have hnv := List.any_eq_false.mp hany p hp
          rw [hid, Bool.true_and] at hnv
          rw [Bool.not_eq_true] at hnv
          unfold rowViolates at hnv
          rw [Bool.not_eq_false'] at hnv
          exact ⟨Nat.le_trans h1 h2, Nat.le_refl _, h3, hnv⟩
        · rw [if_neg hid]
          exact hInv p hp
  | del id =>
    intro p hp
    have hp' : p ∈ db.rows.filter (fun q => !(q.id == id)) := hp
    have := (ProjectRepo.mem_filterNot (fun q => q.id == id) db.rows p).mp hp'
    exact hInv p this.1

theorem inv_run_from_pg (ops : List Op) : ∀ db : Db, Inv db → Inv (run ops db) := by
  induction ops with
  | nil => intro db h; exact h
  | cons op ops ih =>
    intro db h
    exact ih (stepOp op db) (inv_step_pg op db h)

theorem inv_run_pg (ops : List Op) (t0 : Nat) : Inv (run ops (initDb t0)) :=
  inv_run_from_pg ops (initDb t0) (inv_init_pg t0)

end PgDb

namespace SqliteDb

open ProjectRepo

theorem getProjectById_after_insert (input : CreateProjectInput) (db : Db)
    (hwf : ∀ q ∈ db.rows, q.id < db.nextId) :
    getProjectById db.nextId
      ({ db with rows := db.rows ++ [insertedRow input db], nextId := db.nextId + 1 } : Db) =
      some (convertToBoolean (insertedRow input db)) := by
  unfold getProjectById
  show ((db.rows ++ [insertedRow input db]).find? (fun p => p.id == db.nextId)).map
      convertToBoolean = _
  rw [List.find?_append]
  have h1 : db.rows.find? (fun p => p.id == db.nextId) = none := by
    rw [List.find?_eq_none]
    intro x hx heq
    exact Nat.ne_of_lt (hwf x hx) (beq_iff_eq.mp heq)
  rw [h1, Option.none_or]
  have h2 : ([insertedRow input db].find? fun p => p.id == db.nextId) =
      some (insertedRow input db) := by
    simp [insertedRow]
  rw [h2]
  rfl

theorem createProject_ok_val (input : CreateProjectInput) (db : Db)
    (p : ProjectWithBoolean) (db' : Db)
    (hwf : ∀ q ∈ db.rows, q.id < db.nextId)
    (h : createProject input db = .ok (p, db')) :
    p = convertToBoolean (insertedRow input db) ∧
    db' = { db with rows := db.rows ++ [insertedRow input db], nextId := db.nextId + 1 } := by
  obtain ⟨hv, hdb'⟩ := createProject_ok input db p db' h
  refine ⟨?_, hdb'⟩
  unfold createProject at h
  rw [if_neg (by simp [hv])] at h
  have h2 : (match getProjectById db.nextId
      ({ db with rows := db.rows ++ [insertedRow input db], nextId := db.nextId + 1 } : Db) with
    | some q => Except.ok (q,
        ({ db with rows := db.rows ++ [insertedRow input db], nextId := db.nextId + 1 } : Db))
    | none => Except.error (DbError.app "Failed to create project")) =
      (Except.ok (p, db') : Except DbError (ProjectWithBoolean × Db)) := h
  rw [getProjectById_after_insert input db hwf] at h2
  cases h2
  rfl

end SqliteDb

namespace PgDb

open ProjectRepo

theorem getProjectById_after_insert_pg (input : CreateProjectInput) (db : Db)
    (hwf : ∀ q ∈ db.rows, q.id < db.nextId) :
    getProjectById db.nextId
      ({ db with rows := db.rows ++ [insertedRow input db], nextId := db.nextId + 1 } : Db) =
      some (insertedRow input db) := by
  unfold getProjectById
  show (db.rows ++ [insertedRow input db]).find? (fun p => p.id == db.nextId) = _
  rw [List.find?_append]
  have h1 : db.rows.find? (fun p => p.id == db.nextId) = none := by
    rw [List.find?_eq_none]
    intro x hx heq
    exact Nat.ne_of_lt (hwf x hx) (beq_iff_eq.mp heq)
  rw [h1, Option.none_or]
  simp [insertedRow]

end PgDb

/-- C8: in every reachable store state every project satisfies
updatedAt >= createdAt; a freshly created record has createdAt =
updatedAt (both set to the insertion time); and an update leaves every
row's createdAt unchanged while moving updatedAt only forward. Holds in
both driver variants. -/
theorem claim_C8_timestamp_invariant :
    (∀ (ops : List SqliteDb.Op) (t0 : Nat),
      ∀ p ∈ (SqliteDb.run ops (SqliteDb.initDb t0)).rows, p.createdAt ≤ p.updatedAt) ∧
    (∀ (input : ProjectRepo.CreateProjectInput) (db : SqliteDb.Db) q db',
      (∀ x ∈ db.rows, x.id < db.nextId) →
      SqliteDb.createProject input db = .ok (q, db') →
      q.createdAt = q.updatedAt ∧ q.createdAt = db.now) ∧
    (∀ (input : ProjectRepo.UpdateProjectInput) (db : SqliteDb.Db) r db',
      SqliteDb.Inv db → SqliteDb.updateProject input db = .ok (r, db') →
      List.Forall₂
        (fun pOld pNew => pNew.createdAt = pOld.createdAt ∧ pOld.updatedAt ≤ pNew.updatedAt)
        db.rows db'.rows) ∧
    (∀ (ops : List PgDb.Op) (t0 : Nat),
      ∀ p ∈ (PgDb.run ops (PgDb.initDb t0)).rows, p.createdAt ≤ p.updatedAt) ∧
    (∀ (input : ProjectRepo.CreateProjectInput) (db : PgDb.Db) q db',
      PgDb.createProject input db = .ok (q, db') →
      q.createdAt = q.updatedAt ∧ q.createdAt = db.now) ∧
    (∀ (input : ProjectRepo.UpdateProjectInput) (db : PgDb.Db) r db',
      PgDb.Inv db → PgDb.updateProject input db = .ok (r, db') →
      List.Forall₂
        (fun pOld pNew => pNew.createdAt = pOld.createdAt ∧ pOld.updatedAt ≤ pNew.updatedAt)
        db.rows db'.rows) := by
  refine ⟨?_, ?_, ?_, ?_, ?_, ?_⟩
  · intro ops t0 p hp
    exact (SqliteDb.inv_run ops t0 p hp).1
  · intro input db q db' hwf h
    obtain ⟨hq, -⟩ := SqliteDb.createProject_ok_val input db q db' hwf h
    subst hq
    exact ⟨rfl, rfl⟩
  · intro input db r db' hInv h
    obtain ⟨-, hdb', -⟩ := SqliteDb.updateProject_ok input db r db' h
    subst hdb'
    show List.Forall₂ _ db.rows (db.rows.map _)
    rw [List.forall₂_map_right_iff, List.forall₂_same]
    intro x hx
    by_cases hid : (x.id == input.id) = true
    · rw [if_pos hid]
      exact ⟨rfl, (hInv x hx).2.1⟩
    · rw [if_neg hid]
      exact ⟨rfl, Nat.le_refl _⟩
  · intro ops t0 p hp
    exact (PgDb.inv_run_pg ops t0 p hp).1
  · intro input db q db' h
    obtain ⟨-, hq, -⟩ := PgDb.createProject_ok_pg input db q db' h
    subst hq
    exact ⟨rfl, rfl⟩
  · intro input db r db' hInv h
    rcases PgDb.updateProject_ok_pg input db r db' h with ⟨-, hdb', -⟩ | ⟨-, hdb', -⟩
    · subst hdb'
      rw [List.forall₂_same]
      intro x _
      exact ⟨rfl, Nat.le_refl _⟩
    · subst hdb'
      show List.Forall₂ _ db.rows (db.rows.map _)
      rw [List.forall₂_map_right_iff, List.forall₂_same]
      intro x hx
      by_cases hid : (x.id == input.id) = true
      · rw [if_pos hid]
        exact ⟨rfl, (hInv x hx).2.1⟩
      · rw [if_neg hid]
        exact ⟨rfl, Nat.le_refl _⟩

/-- C5 counterexample: an update supplying the invalid category "bogus"
for an id that has no row updates zero rows, so the CHECK constraint is
never evaluated: the call succeeds with a not-found result (in both
driver variants) instead of failing with a StorageError or being
rejected before reaching storage. -/
theorem claim_C5_counterexample :
    SqliteDb.updateProject ⟨1, none, none, some "bogus", none⟩ (SqliteDb.initDb 0) =
      .ok (none, SqliteDb.initDb 0) ∧
    PgDb.updateProject ⟨1, none, none, some "bogus", none⟩ (PgDb.initDb 0) =
      .ok (none, PgDb.initDb 0) ∧
    ProjectRepo.validCategory "bogus" = false := by decide

/-- C5 amended: a category outside the closed set always fails create at
the storage boundary (store unchanged), fails update with a StorageError
whenever a row with the target id exists, is never stored (every
reachable store state holds only valid categories), and is rejected by
both Zod schemas before reaching storage; the only path that neither
fails nor rejects is an update of a nonexistent id, which stores nothing
and reports not-found. -/
theorem claim_C5_category_enforcement :
    (∀ (input : ProjectRepo.CreateProjectInput) (db : SqliteDb.Db),
      ProjectRepo.validCategory input.category = false →
      SqliteDb.createProject input db = .error .storage) ∧
    (∀ (input : ProjectRepo.CreateProjectInput) (db : PgDb.Db),
      ProjectRepo.validCategory input.category = false →
      PgDb.createProject input db = .error .storage) ∧
    (∀ (input : ProjectRepo.UpdateProjectInput) (db : SqliteDb.Db) (c : String)
       (p : SqliteDb.Project),
      p ∈ db.rows → p.id = input.id → input.category = some c →
      ProjectRepo.validCategory c = false →
      SqliteDb.updateProject input db = .error .storage) ∧
    (∀ (input : ProjectRepo.UpdateProjectInput) (db : PgDb.Db) (c : String)
       (p : PgDb.Project),
      p ∈ db.rows → p.id = input.id → input.category = some c →
      ProjectRepo.validCategory c = false →
      PgDb.updateProject input db = .error .storage) ∧
    (∀ (ops : List SqliteDb.Op) (t0 : Nat),
      ∀ p ∈ (SqliteDb.run ops (SqliteDb.initDb t0)).rows,
        ProjectRepo.validCategory p.category = true) ∧
    (∀ (ops : List PgDb.Op) (t0 : Nat),
      ∀ p ∈ (PgDb.run ops (PgDb.initDb t0)).rows,
        ProjectRepo.validCategory p.category = true) ∧
    (∀ (raw : Actions.RawCreateData) (c : String),
      raw.category = some c → ProjectRepo.validCategory c = false →
      Actions.createProjectSchemaParse raw = none) ∧
    (∀ (raw : Actions.RawUpdateData) (c : String),
      raw.category = some c → ProjectRepo.validCategory c = false →
      Actions.updateProjectSchemaParse raw = none) := by
  refine ⟨?_, ?_, ?_, ?_, ?_, ?_, ?_, ?_⟩
  · intro input db h
    exact SqliteDb.createProject_err input db h
  · intro input db h
    exact PgDb.createProject_err_pg input db h
  · intro input db c p hp hid hc hvc
    exact SqliteDb.updateProject_err_invalid input db c p hp hid hc hvc
  · intro input db c p hp hid hc hvc
    exact PgDb.updateProject_err_invalid_pg input db c p hp hid hc hvc
  · intro ops t0 p hp
    exact (SqliteDb.inv_run ops t0 p hp).2.2.2.1
  · intro ops t0 p hp
    exact (PgDb.inv_run_pg ops t0 p hp).2.2.2
  · rintro ⟨n, d, cat, pub⟩ c hc hvc
    subst hc
    unfold Actions.createProjectSchemaParse
    cases n <;> cases d <;> simp [Actions.zStr, hvc]
  · rintro ⟨n, d, cat, pub⟩ c hc hvc
    subst hc
    unfold Actions.updateProjectSchemaParse Actions.zCatOpt
    dsimp only
    rw [hvc]
    cases hn : Actions.zStrOpt 3 100 n <;> cases hd : Actions.zStrOpt 10 500 d <;> simp

namespace SqliteDb

open ProjectRepo

theorem createProject_succeeds (input : CreateProjectInput) (db : Db)
    (hwf : ∀ x ∈ db.rows, x.id < db.nextId)
    (hv : validCategory input.category = true) :
    createProject input db = .ok (convertToBoolean (insertedRow input db),
      { db with rows := db.rows ++ [insertedRow input db], nextId := db.nextId + 1 }) := by
  unfold createProject
  rw [if_neg (by simp [hv])]
  simp only [getProjectById_after_insert input db hwf]

end SqliteDb

namespace PgDb

open ProjectRepo

theorem createProject_succeeds_pg (input : CreateProjectInput) (db : Db)
    (hv : validCategory input.category = true) :
    createProject input db = .ok (insertedRow input db,
      { db with rows := db.rows ++ [insertedRow input db], nextId := db.nextId + 1 }) := by
  unfold createProject
  rw [if_neg (by simp [hv])]

end PgDb

/-- C3: for every valid create input on a well-formed store, create
inserts a row with a store-assigned id and both timestamps set to the
insertion time, returns the full stored record, and reading the returned
id back yields a record equal to create's result; the Zod create schema
defaults an absent isPublic to false. Holds in both driver variants. -/
theorem claim_C3_create_roundtrip :
    (∀ (input : ProjectRepo.CreateProjectInput) (db : SqliteDb.Db),
      (∀ x ∈ db.rows, x.id < db.nextId) →
      ProjectRepo.validCategory input.category = true →
      ∃ q db', SqliteDb.createProject input db = .ok (q, db') ∧
        SqliteDb.getProjectById q.id db' = some q ∧
        q.id = db.nextId ∧ q.createdAt = db.now ∧ q.updatedAt = db.now ∧
        q.name = input.name ∧ q.description = input.description ∧
        q.category = input.category ∧ q.isPublic = input.isPublic ∧
        db'.rows = db.rows ++ [SqliteDb.insertedRow input db]) ∧
    (∀ (input : ProjectRepo.CreateProjectInput) (db : PgDb.Db),
      (∀ x ∈ db.rows, x.id < db.nextId) →
      ProjectRepo.validCategory input.category = true →
      ∃ q db', PgDb.createProject input db = .ok (q, db') ∧
        PgDb.getProjectById q.id db' = some q ∧
        q.id = db.nextId ∧ q.createdAt = db.now ∧ q.updatedAt = db.now ∧
        q.name = input.name ∧ q.description = input.description ∧
        q.category = input.category ∧ q.isPublic = input.isPublic ∧
        db'.rows = db.rows ++ [PgDb.insertedRow input db]) ∧
    (∀ (raw : Actions.RawCreateData) (res : ProjectRepo.CreateProjectInput),
      raw.isPublic = none → Actions.createProjectSchemaParse raw = some res →
      res.isPublic = false) := by
  refine ⟨?_, ?_, ?_⟩
  · intro input db hwf hv
    refine ⟨SqliteDb.convertToBoolean (SqliteDb.insertedRow input db), _,
      SqliteDb.createProject_succeeds input db hwf hv, ?_, rfl, rfl, rfl, rfl, rfl, rfl, ?_, rfl⟩
    · exact SqliteDb.getProjectById_after_insert input db hwf
    · cases hb : input.isPublic <;>
        simp [SqliteDb.convertToBoolean, SqliteDb.insertedRow, hb]
  · intro input db hwf hv
    refine ⟨PgDb.insertedRow input db, _,
      PgDb.createProject_succeeds_pg input db hv, ?_, rfl, rfl, rfl, rfl, rfl, rfl, rfl, rfl⟩
    exact PgDb.getProjectById_after_insert_pg input db hwf
  · rintro ⟨n, d, cat, pub⟩ res hpub hparse
    dsimp only at hpub
    subst hpub
    unfold Actions.createProjectSchemaParse at hparse
    rcases n with _ | n <;> rcases d with _ | d <;> rcases cat with _ | cat <;>
      dsimp only at hparse
    · cases hparse
    · cases hparse
    · cases hparse
    · cases hparse
    · cases hparse
    · cases hparse
    · cases hparse
    · split at hparse
      · cases hparse; rfl
      · cases hparse

namespace SqliteDb

open ProjectRepo

theorem updateProject_no_violation (input : UpdateProjectInput) (db : Db)
    (hany : (db.rows.any fun q => q.id == input.id && rowViolates (applyRow input db.now q)) = false) :
    updateProject input db = .ok (getProjectById input.id
      ({ db with rows := db.rows.map (fun q => if q.id == input.id then applyRow input db.now q else q) } : Db),
      ({ db with rows := db.rows.map (fun q => if q.id == input.id then applyRow input db.now q else q) } : Db)) := by
  unfold updateProject
  rw [if_neg (by simp), if_neg (by simp [hany])]

theorem find?_updated (input : UpdateProjectInput) (db : Db) (p : Project)
    (hp : p ∈ db.rows) (hpid : p.id = input.id) :
    ∃ p₀, p₀ ∈ db.rows ∧ p₀.id = input.id ∧
      ((db.rows.map (fun q => if q.id == input.id then applyRow input db.now q else q)).find?
        (fun q => q.id == input.id)) = some (applyRow input db.now p₀) := by
  have hsome : (db.rows.find? fun q => q.id == input.id).isSome = true :=
    List.find?_isSome.mpr ⟨p, hp, by simp [hpid]⟩
  obtain ⟨p₀, hp₀⟩ := Option.isSome_iff_exists.mp hsome
  have hid0 : (p₀.id == input.id) = true := by
    have h := List.find?_some hp₀
    exact h
  refine ⟨p₀, List.mem_of_find?_eq_some hp₀, beq_iff_eq.mp hid0, ?_⟩
  rw [List.find?_map]
  have hpred : ((fun q => q.id == input.id) ∘
      (fun q => if q.id == input.id then applyRow input db.now q else q)) =
      (fun q : Project => q.id == input.id) := by
    funext q
    by_cases h : (q.id == input.id) = true
    · rw [Function.comp_apply, if_pos h]
      rfl
    · rw [Function.comp_apply, if_neg h]
  rw [hpred, hp₀, Option.map_some', if_pos hid0]

theorem updateProject_found (input : UpdateProjectInput) (db : Db) (p : Project)
    (hany : (db.rows.any fun q => q.id == input.id && rowViolates (applyRow input db.now q)) = false)
    (hp : p ∈ db.rows) (hpid : p.id = input.id) :
    ∃ p₀, p₀ ∈ db.rows ∧ p₀.id = input.id ∧
      updateProject input db = .ok (some (convertToBoolean (applyRow input db.now p₀)),
        ({ db with rows := db.rows.map (fun q => if q.id == input.id then applyRow input db.now q else q) } : Db)) := by
  obtain ⟨p₀, hmem, hid, hfind⟩ := find?_updated input db p hp hpid
  refine ⟨p₀, hmem, hid, ?_⟩
  rw [updateProject_no_violation input db hany]
  unfold getProjectById
  dsimp only
  rw [hfind]
  rfl

theorem no_violation_of_inv (input : UpdateProjectInput) (db : Db) (hInv : Inv db)
    (hcat : ∀ c, input.category = some c → validCategory c = true) :
    (db.rows.any fun q => q.id == input.id && rowViolates (applyRow input db.now q)) = false := by
  rw [List.any_eq_false]
  intro x hx hcontra
  rw [Bool.and_eq_true] at hcontra
  obtain ⟨-, h2⟩ := hcontra
  obtain ⟨-, -, -, hxcat, hxpub⟩ := hInv x hx
  unfold rowViolates applyRow at h2
  rcases hcop : input.category with _ | c <;> rcases hpop : input.isPublic with _ | b <;>
    rw [hcop, hpop] at h2 <;> dsimp only [Option.getD] at h2
  · rw [hxcat] at h2
    rcases hxpub with h | h <;> simp [h] at h2
  · rw [hxcat] at h2
    cases b <;> simp at h2
  · rw [hcat c hcop] at h2
    rcases hxpub with h | h <;> simp [h] at h2
  · rw [hcat c hcop] at h2
    cases b <;> simp at h2

end SqliteDb

namespace PgDb

open ProjectRepo

theorem updateProject_no_violation_pg (input : UpdateProjectInput) (db : Db)
    (hsup : ((suppliedCount input + 1) == 1) = false)
    (hany : (db.rows.any fun q => q.id == input.id && rowViolates (applyRow input db.now q)) = false) :
    updateProject input db = .ok
      ((db.rows.map (fun q => if q.id == input.id then applyRow input db.now q else q)).find?
        (fun q => q.id == input.id),
      ({ db with rows := db.rows.map (fun q => if q.id == input.id then applyRow input db.now q else q) } : Db)) := by
  unfold updateProject
  rw [if_neg (by simp [hsup]), if_neg (by simp [hany])]

theorem find?_updated_pg (input : UpdateProjectInput) (db : Db) (p : Project)
    (hp : p ∈ db.rows) (hpid : p.id = input.id) :
    ∃ p₀, p₀ ∈ db.rows ∧ p₀.id = input.id ∧
      ((db.rows.map (fun q => if q.id == input.id then applyRow input db.now q else q)).find?
        (fun q => q.id == input.id)) = some (applyRow input db.now p₀) := by
  have hsome : (db.rows.find? fun q => q.id == input.id).isSome = true :=
    List.find?_isSome.mpr ⟨p, hp, by simp [hpid]⟩
  obtain ⟨p₀, hp₀⟩ := Option.isSome_iff_exists.mp hsome
  have hid0 : (p₀.id == input.id) = true := by
    have h := List.find?_some hp₀
    exact h
  refine ⟨p₀, List.mem_of_find?_eq_some hp₀, beq_iff_eq.mp hid0, ?_⟩
  rw [List.find?_map]
  have hpred : ((fun q => q.id == input.id) ∘
      (fun q => if q.id == input.id then applyRow input db.now q else q)) =
      (fun q : Project => q.id == input.id) := by
    funext q
    by_cases h : (q.id == input.id) = true
    · rw [Function.comp_apply, if_pos h]
      rfl
    · rw [Function.comp_apply, if_neg h]
  rw [hpred, hp₀, Option.map_some', if_pos hid0]

theorem updateProject_found_pg (input : UpdateProjectInput) (db : Db) (p : Project)
    (hsup : ((suppliedCount input + 1) == 1) = false)
    (hany : (db.rows.any fun q => q.id == input.id && rowViolates (applyRow input db.now q)) = false)
    (hp : p ∈ db.rows) (hpid : p.id = input.id) :
    ∃ p₀, p₀ ∈ db.rows ∧ p₀.id = input.id ∧
      updateProject input db = .ok (some (applyRow input db.now p₀),
        ({ db with rows := db.rows.map (fun q => if q.id == input.id then applyRow input db.now q else q) } : Db)) := by
  obtain ⟨p₀, hmem, hid, hfind⟩ := find?_updated_pg input db p hp hpid
  refine ⟨p₀, hmem, hid, ?_⟩
  rw [updateProject_no_violation_pg input db hsup hany, hfind]

theorem no_violation_of_inv_pg (input : UpdateProjectInput) (db : Db) (hInv : Inv db)
    (hcat : ∀ c, input.category = some c → validCategory c = true) :
    (db.rows.any fun q => q.id == input.id && rowViolates (applyRow input db.now q)) = false := by
  rw [List.any_eq_false]
  intro x hx hcontra
  rw [Bool.and_eq_true] at hcontra
  obtain ⟨-, h2⟩ := hcontra
  obtain ⟨-, -, -, hxcat⟩ := hInv x hx
  unfold rowViolates applyRow at h2
  rcases hcop : input.category with _ | c <;>
    rw [hcop] at h2 <;> dsimp only [Option.getD] at h2
  · rw [hxcat] at h2
    simp at h2
  · rw [hcat c hcop] at h2
    simp at h2

end PgDb

/-- C1 counterexample: in the PostgreSQL variant, update with zero
supplied fields short-circuits: with the store clock at 5 and a row
whose updatedAt is 1, an update supplying no fields performs no store write (the
store is returned unchanged) and the returned record's updatedAt is
still 1, not the time of the call. -/
theorem claim_C1_counterexample :
    PgDb.updateProject ⟨1, none, none, none, none⟩
      (⟨[⟨1, "Project Alpha", "Next-gen infra project", "infrastructure", true, 1, 1⟩], 2, 5⟩ : PgDb.Db) =
      .ok (some ⟨1, "Project Alpha", "Next-gen infra project", "infrastructure", true, 1, 1⟩,
        (⟨[⟨1, "Project Alpha", "Next-gen infra project", "infrastructure", true, 1, 1⟩], 2, 5⟩ : PgDb.Db)) ∧
    ¬(1 : Nat) = 5 := by decide

/-- C1 amended: update with zero supplied fields is never a no-op error
in either variant. In the SQLite variant it performs a store write: it
returns the found record with updatedAt refreshed to the clock and all
other fields unchanged, and rewrites the store accordingly. In the
PostgreSQL variant it skips the write and returns the found record (and
the store) unchanged, so updatedAt is not refreshed there. -/
theorem claim_C1_zero_field_update :
    (∀ (i : Nat) (db : SqliteDb.Db) (p : SqliteDb.Project),
      SqliteDb.Inv db → p ∈ db.rows → p.id = i →
      ∃ p₀ r db', p₀ ∈ db.rows ∧ p₀.id = i ∧
        SqliteDb.updateProject ⟨i, none, none, none, none⟩ db = .ok (some r, db') ∧
        r.updatedAt = db.now ∧ r.createdAt = p₀.createdAt ∧ r.name = p₀.name ∧
        r.description = p₀.description ∧ r.category = p₀.category ∧
        r.isPublic = (p₀.isPublic == 1) ∧ r.id = p₀.id ∧
        db'.rows = db.rows.map
          (fun q => if q.id == i then { q with updatedAt := db.now } else q)) ∧
    (∀ (i : Nat) (db : PgDb.Db),
      PgDb.updateProject ⟨i, none, none, none, none⟩ db =
        .ok (PgDb.getProjectById i db, db)) := by
  constructor
  · intro i db p hInv hp hpid
    have hany := SqliteDb.no_violation_of_inv ⟨i, none, none, none, none⟩ db hInv
      (by intro c hc; cases hc)
    obtain ⟨p₀, hmem, hid, heq⟩ :=
      SqliteDb.updateProject_found ⟨i, none, none, none, none⟩ db p hany hp hpid
    exact ⟨p₀, _, _, hmem, hid, heq, rfl, rfl, rfl, rfl, rfl, rfl, rfl, rfl⟩
  · intro i db
    rfl

/-- C2 counterexample: in the PostgreSQL variant an update supplying no
fields does not refresh updatedAt: with the clock advanced to 9, the
returned record keeps its prior updatedAt of 2, contradicting
"updatedAt is refreshed on every update regardless of which other
fields are supplied". -/
theorem claim_C2_counterexample :
    PgDb.updateProject ⟨1, none, none, none, none⟩
      (⟨[⟨1, "Beta Launch", "Product development initiative", "product", false, 2, 2⟩], 2, 9⟩ : PgDb.Db) =
      .ok (some ⟨1, "Beta Launch", "Product development initiative", "product", false, 2, 2⟩,
        (⟨[⟨1, "Beta Launch", "Product development initiative", "product", false, 2, 2⟩], 2, 9⟩ : PgDb.Db)) ∧
    ¬(2 : Nat) = 9 := by decide

/-- C2 amended: update changes exactly the supplied fields plus
updatedAt and leaves unsupplied fields and all other rows untouched; in
the SQLite variant updatedAt is refreshed on every update, while in the
PostgreSQL variant it is refreshed on every update that supplies at
least one field (a zero-field update leaves the store unchanged). -/
theorem claim_C2_frame_property :
    (∀ (input : ProjectRepo.UpdateProjectInput) (db : SqliteDb.Db) (p : SqliteDb.Project),
      SqliteDb.Inv db → p ∈ db.rows → p.id = input.id →
      (∀ c, input.category = some c → ProjectRepo.validCategory c = true) →
      ∃ p₀ r db', p₀ ∈ db.rows ∧ p₀.id = input.id ∧
        SqliteDb.updateProject input db = .ok (some r, db') ∧
        r.name = input.name.getD p₀.name ∧
        r.description = input.description.getD p₀.description ∧
        r.category = input.category.getD p₀.category ∧
        r.isPublic = input.isPublic.getD (p₀.isPublic == 1) ∧
        r.updatedAt = db.now ∧ r.createdAt = p₀.createdAt ∧ r.id = p₀.id ∧
        db'.rows = db.rows.map
          (fun q => if q.id == input.id then SqliteDb.applyRow input db.now q else q) ∧
        (∀ q ∈ db.rows, ¬q.id = input.id → q ∈ db'.rows)) ∧
    (∀ (input : ProjectRepo.UpdateProjectInput) (db : PgDb.Db) (p : PgDb.Project),
      PgDb.Inv db → p ∈ db.rows → p.id = input.id →
      (∀ c, input.category = some c → ProjectRepo.validCategory c = true) →
      ((ProjectRepo.suppliedCount input + 1) == 1) = false →
      ∃ p₀ r db', p₀ ∈ db.rows ∧ p₀.id = input.id ∧
        PgDb.updateProject input db = .ok (some r, db') ∧
        r.name = input.name.getD p₀.name ∧
        r.description = input.description.getD p₀.description ∧
        r.category = input.category.getD p₀.category ∧
        r.isPublic = input.isPublic.getD p₀.isPublic ∧
        r.updatedAt = db.now ∧ r.createdAt = p₀.createdAt ∧ r.id = p₀.id ∧
        db'.rows = db.rows.map
          (fun q => if q.id == input.id then PgDb.applyRow input db.now q else q) ∧
        (∀ q ∈ db.rows, ¬q.id = input.id → q ∈ db'.rows)) := by
  constructor
  · intro input db p hInv hp hpid hcat
    have hany := SqliteDb.no_violation_of_inv input db hInv hcat
    obtain ⟨p₀, hmem, hid, heq⟩ := SqliteDb.updateProject_found input db p hany hp hpid
    refine ⟨p₀, _, _, hmem, hid, heq, rfl, rfl, rfl, ?_, rfl, rfl, rfl, rfl, ?_⟩
    · rcases hbp : input.isPublic with _ | b
      · simp [SqliteDb.convertToBoolean, SqliteDb.applyRow, hbp]
      · cases b <;> simp [SqliteDb.convertToBoolean, SqliteDb.applyRow, hbp]
    · intro q hq hqid
      apply List.mem_map.mpr
      refine ⟨q, hq, ?_⟩
      rw [if_neg (by simpa using hqid)]
  · intro input db p hInv hp hpid hcat hsup
    have hany := PgDb.no_violation_of_inv_pg input db hInv hcat
    obtain ⟨p₀, hmem, hid, heq⟩ := PgDb.updateProject_found_pg input db p hsup hany hp hpid
    refine ⟨p₀, _, _, hmem, hid, heq, rfl, rfl, rfl, rfl, rfl, rfl, rfl, rfl, ?_⟩
    intro q hq hqid
    apply List.mem_map.mpr
    refine ⟨q, hq, ?_⟩
    rw [if_neg (by simpa using hqid)]

/-- C7 counterexample: the query "%" is interpolated unescaped into the
LIKE pattern, so search("%") on a store whose single project contains no
"%" in its name or description still returns that project, though "%"
is not a case-insensitive substring of either field. -/
theorem claim_C7_counterexample :
    SqliteDb.searchProjects "%"
      (⟨[⟨1, "abc", "ddddddddddd", "product", 0, 3, 3⟩], 2, 3⟩ : SqliteDb.Db) =
      [⟨1, "abc", "ddddddddddd", "product", false, 3, 3⟩] ∧
    PgDb.searchProjects "%"
      (⟨[⟨1, "abc", "ddddddddddd", "product", false, 3, 3⟩], 2, 3⟩ : PgDb.Db) =
      [⟨1, "abc", "ddddddddddd", "product", false, 3, 3⟩] ∧
    ProjectRepo.containsCI "%" "abc" = false ∧
    ProjectRepo.containsCI "%" "ddddddddddd" = false := by decide

/-- C7 amended: for every query containing neither % nor _, search
returns exactly the projects whose name or description contains the
query as a case-insensitive substring, ordered most-recently-updated
first, and in particular returns the empty sequence when no project
matches. Holds in both driver variants. -/
theorem claim_C7_search_substring :
    (∀ (query : String) (db : SqliteDb.Db), ProjectRepo.noWildcards query = true →
      SqliteDb.searchProjects query db =
        (List.insertionSort SqliteDb.updGE (db.rows.filter fun p =>
          ProjectRepo.containsCI query p.name ||
          ProjectRepo.containsCI query p.description)).map SqliteDb.convertToBoolean) ∧
    (∀ (query : String) (db : PgDb.Db), ProjectRepo.noWildcards query = true →
      PgDb.searchProjects query db =
        List.insertionSort PgDb.updGE (db.rows.filter fun p =>
          ProjectRepo.containsCI query p.name ||
          ProjectRepo.containsCI query p.description)) ∧
    (∀ (query : String) (db : SqliteDb.Db), ProjectRepo.noWildcards query = true →
      (∀ p ∈ db.rows, ProjectRepo.containsCI query p.name = false ∧
        ProjectRepo.containsCI query p.description = false) →
      SqliteDb.searchProjects query db = []) ∧
    (∀ (query : String) (db : PgDb.Db), ProjectRepo.noWildcards query = true →
      (∀ p ∈ db.rows, ProjectRepo.containsCI query p.name = false ∧
        ProjectRepo.containsCI query p.description = false) →
      PgDb.searchProjects query db = []) := by
  have hfs : ∀ (query : String) (db : SqliteDb.Db), ProjectRepo.noWildcards query = true →
      (db.rows.filter fun p =>
        ProjectRepo.likeMatch (ProjectRepo.likePattern query) (ProjectRepo.lc p.name) ||
        ProjectRepo.likeMatch (ProjectRepo.likePattern query) (ProjectRepo.lc p.description)) =
      (db.rows.filter fun p =>
        ProjectRepo.containsCI query p.name || ProjectRepo.containsCI query p.description) := by
    intro query db hq
    apply List.filter_congr
    intro x _
    rw [ProjectRepo.likePattern_match_eq query hq x.name,
        ProjectRepo.likePattern_match_eq query hq x.description]
  have hfp : ∀ (query : String) (db : PgDb.Db), ProjectRepo.noWildcards query = true →
      (db.rows.filter fun p =>
        ProjectRepo.likeMatch (ProjectRepo.likePattern query) (ProjectRepo.lc p.name) ||
        ProjectRepo.likeMatch (ProjectRepo.likePattern query) (ProjectRepo.lc p.description)) =
      (db.rows.filter fun p =>
        ProjectRepo.containsCI query p.name || ProjectRepo.containsCI query p.description) := by
    intro query db hq
    apply List.filter_congr
    intro x _
    rw [ProjectRepo.likePattern_match_eq query hq x.name,
        ProjectRepo.likePattern_match_eq query hq x.description]
  refine ⟨?_, ?_, ?_, ?_⟩
  · intro query db hq
    unfold SqliteDb.searchProjects
    rw [hfs query db hq]
  · intro query db hq
    unfold PgDb.searchProjects
    rw [hfp query db hq]
  · intro query db hq hnone
    unfold SqliteDb.searchProjects
    rw [hfs query db hq]
    have : (db.rows.filter fun p =>
        ProjectRepo.containsCI query p.name || ProjectRepo.containsCI query p.description) = [] := by
      rw [List.filter_eq_nil_iff]
      intro a ha
      rw [(hnone a ha).1, (hnone a ha).2]
      simp
    rw [this]
    rfl
  · intro query db hq hnone
    unfold PgDb.searchProjects
    rw [hfp query db hq]
    have : (db.rows.filter fun p =>
        ProjectRepo.containsCI query p.name || ProjectRepo.containsCI query p.description) = [] := by
      rw [List.filter_eq_nil_iff]
      intro a ha
      rw [(hnone a ha).1, (hnone a ha).2]
      simp
    rw [this]
    rfl

/-- C9: the query is interpolated into the LIKE pattern between two %
wildcards without escaping % or _; consequently the substring contract
holds for every wildcard-free query (in both variants), while a query
consisting of the wildcard _ matches a project whose fields do not
contain _ literally (the pattern matches any nonempty field). -/
theorem claim_C9_unescaped_wildcards :
    (∀ query : String, ProjectRepo.likePattern query =
      '%' :: (ProjectRepo.lc query ++ ['%'])) ∧
    (∀ (query : String) (db : SqliteDb.Db), ProjectRepo.noWildcards query = true →
      SqliteDb.searchProjects query db =
        (List.insertionSort SqliteDb.updGE (db.rows.filter fun p =>
          ProjectRepo.containsCI query p.name ||
          ProjectRepo.containsCI query p.description)).map SqliteDb.convertToBoolean) ∧
    (∀ (query : String) (db : PgDb.Db), ProjectRepo.noWildcards query = true →
      PgDb.searchProjects query db =
        List.insertionSort PgDb.updGE (db.rows.filter fun p =>
          ProjectRepo.containsCI query p.name ||
          ProjectRepo.containsCI query p.description)) ∧
    (SqliteDb.searchProjects "_"
        (⟨[⟨1, "xy", "zwzwzwzwzwzw", "internal", 0, 4, 4⟩], 2, 4⟩ : SqliteDb.Db) =
      [⟨1, "xy", "zwzwzwzwzwzw", "internal", false, 4, 4⟩] ∧
     ProjectRepo.containsCI "_" "xy" = false ∧
     ProjectRepo.containsCI "_" "zwzwzwzwzwzw" = false) ∧
    (PgDb.searchProjects "_"
        (⟨[⟨1, "xy", "zwzwzwzwzwzw", "internal", false, 4, 4⟩], 2, 4⟩ : PgDb.Db) =
      [⟨1, "xy", "zwzwzwzwzwzw", "internal", false, 4, 4⟩]) := by
  refine ⟨fun _ => rfl, ?_, ?_, by decide, by decide⟩
  · intro query db hq
    unfold SqliteDb.searchProjects
    congr 1
    apply congrArg
    apply List.filter_congr
    intro x _
    rw [ProjectRepo.likePattern_match_eq query hq x.name,
        ProjectRepo.likePattern_match_eq query hq x.description]
  · intro query db hq
    unfold PgDb.searchProjects
    apply congrArg
    apply List.filter_congr
    intro x _
    rw [ProjectRepo.likePattern_match_eq query hq x.name,
        ProjectRepo.likePattern_match_eq query hq x.description]

namespace Actions

open ProjectRepo

theorem updateParse_fields (raw : RawUpdateData) (d : UpdateFields)
    (h : updateProjectSchemaParse raw = some d) :
    d.isPublic = some raw.isPublic ∧ (raw.name = none → d.name = none) ∧
    (raw.description = none → d.description = none) ∧
    (raw.category = none → d.category = none) := by
  unfold updateProjectSchemaParse at h
  cases hn : zStrOpt 3 100 raw.name <;>
    cases hd : zStrOpt 10 500 raw.description <;>
    cases hc : zCatOpt raw.category <;>
    rw [hn, hd, hc] at h <;> try cases h
  refine ⟨rfl, ?_, ?_, ?_⟩
  · intro hnone
    rw [hnone] at hn
    cases hn
    rfl
  · intro hnone
    rw [hnone] at hd
    cases hd
    rfl
  · intro hnone
    rw [hnone] at hc
    cases hc
    rfl

end Actions

/-- C10: whenever the update server action reaches the repository, the
input it passes always carries a defined boolean isPublic, true exactly
when the form field is "on" or "true" (false otherwise, including when
the field is absent); empty-string name, description and category form
values are coerced to undefined (omitted); and the repository itself
leaves isPublic untouched when it is omitted. -/
theorem claim_C10_action_isPublic :
    (∀ (id : Nat) (form : List (String × String)) (inp : ProjectRepo.UpdateProjectInput),
      Actions.actionUpdateToRepoInput id form = some inp →
      inp.id = id ∧
      inp.isPublic = some ((Actions.fdGet form "isPublic" == some "on") ||
        (Actions.fdGet form "isPublic" == some "true")) ∧
      (Actions.fdGet form "name" = some "" → inp.name = none) ∧
      (Actions.fdGet form "name" = none → inp.name = none) ∧
      (Actions.fdGet form "description" = some "" → inp.description = none) ∧
      (Actions.fdGet form "description" = none → inp.description = none) ∧
      (Actions.fdGet form "category" = some "" → inp.category = none) ∧
      (Actions.fdGet form "category" = none → inp.category = none)) ∧
    (∀ (input : ProjectRepo.UpdateProjectInput) (now : Nat) (p : SqliteDb.Project),
      input.isPublic = none → (SqliteDb.applyRow input now p).isPublic = p.isPublic) ∧
    (∀ (input : ProjectRepo.UpdateProjectInput) (now : Nat) (p : PgDb.Project),
      input.isPublic = none → (PgDb.applyRow input now p).isPublic = p.isPublic) := by
  refine ⟨?_, ?_, ?_⟩
  · intro id form inp h
    unfold Actions.actionUpdateToRepoInput at h
    cases hparse : Actions.updateProjectSchemaParse (Actions.extractUpdateRaw form) with
    | none => rw [hparse] at h; cases h
    | some d =>
      rw [hparse] at h
      rw [Option.map_some'] at h
      cases h
      obtain ⟨hpub, hname, hdesc, hcat⟩ :=
        Actions.updateParse_fields (Actions.extractUpdateRaw form) d hparse
      refine ⟨rfl, ?_, ?_, ?_, ?_, ?_, ?_, ?_⟩
      · exact hpub
      · intro hf
        apply hname
        show Actions.orUndef (Actions.fdGet form "name") = none
        rw [hf]
        rfl
      · intro hf
        apply hname
        show Actions.orUndef (Actions.fdGet form "name") = none
        rw [hf]
        rfl
      · intro hf
        apply hdesc
        show Actions.orUndef (Actions.fdGet form "description") = none
        rw [hf]
        rfl
      · intro hf
        apply hdesc
        show Actions.orUndef (Actions.fdGet form "description") = none
        rw [hf]
        rfl
      · intro hf
        apply hcat
        show Actions.orUndef (Actions.fdGet form "category") = none
        rw [hf]
        rfl
      · intro hf
        apply hcat
        show Actions.orUndef (Actions.fdGet form "category") = none
        rw [hf]
        rfl
  · intro input now p hnone
    unfold SqliteDb.applyRow
    rw [hnone]
  · intro input now p hnone
    unfold PgDb.applyRow
    rw [hnone]
    rfl

/-- C1 witness: the zero-field-update theorem applied to a concrete
one-row SQLite store with the clock at 7. -/
theorem claim_C1_zero_field_update_witness :
    ∃ p₀ r db', p₀ ∈ (⟨[⟨1, "Project Alpha", "Next-gen infra", "product", 1, 0, 0⟩], 2, 7⟩ : SqliteDb.Db).rows ∧
      p₀.id = 1 ∧
      SqliteDb.updateProject ⟨1, none, none, none, none⟩
        (⟨[⟨1, "Project Alpha", "Next-gen infra", "product", 1, 0, 0⟩], 2, 7⟩ : SqliteDb.Db) =
        .ok (some r, db') ∧
      r.updatedAt = (⟨[⟨1, "Project Alpha", "Next-gen infra", "product", 1, 0, 0⟩], 2, 7⟩ : SqliteDb.Db).now ∧
      r.createdAt = p₀.createdAt ∧ r.name = p₀.name ∧
      r.description = p₀.description ∧ r.category = p₀.category ∧
      r.isPublic = (p₀.isPublic == 1) ∧ r.id = p₀.id ∧
      db'.rows = (⟨[⟨1, "Project Alpha", "Next-gen infra", "product", 1, 0, 0⟩], 2, 7⟩ : SqliteDb.Db).rows.map
        (fun q => if q.id == 1 then { q with updatedAt := (⟨[⟨1, "Project Alpha", "Next-gen infra", "product", 1, 0, 0⟩], 2, 7⟩ : SqliteDb.Db).now } else q) :=
  claim_C1_zero_field_update.1 1
    ⟨[⟨1, "Project Alpha", "Next-gen infra", "product", 1, 0, 0⟩], 2, 7⟩
    ⟨1, "Project Alpha", "Next-gen infra", "product", 1, 0, 0⟩
    (by unfold SqliteDb.Inv; decide) (by decide) (by decide)

/-- C2 witness: the frame-property theorem applied to a concrete store
and an update supplying only the name. -/
theorem claim_C2_frame_property_witness :
    ∃ p₀ r db', p₀ ∈ (⟨[⟨1, "Project Alpha", "Next-gen infra", "product", 1, 0, 0⟩], 2, 7⟩ : SqliteDb.Db).rows ∧
      p₀.id = (⟨1, some "New Name", none, none, none⟩ : ProjectRepo.UpdateProjectInput).id ∧
      SqliteDb.updateProject ⟨1, some "New Name", none, none, none⟩
        (⟨[⟨1, "Project Alpha", "Next-gen infra", "product", 1, 0, 0⟩], 2, 7⟩ : SqliteDb.Db) =
        .ok (some r, db') ∧
      r.name = (⟨1, some "New Name", none, none, none⟩ : ProjectRepo.UpdateProjectInput).name.getD p₀.name ∧
      r.description = (⟨1, some "New Name", none, none, none⟩ : ProjectRepo.UpdateProjectInput).description.getD p₀.description ∧
      r.category = (⟨1, some "New Name", none, none, none⟩ : ProjectRepo.UpdateProjectInput).category.getD p₀.category ∧
      r.isPublic = (⟨1, some "New Name", none, none, none⟩ : ProjectRepo.UpdateProjectInput).isPublic.getD (p₀.isPublic == 1) ∧
      r.updatedAt = (⟨[⟨1, "Project Alpha", "Next-gen infra", "product", 1, 0, 0⟩], 2, 7⟩ : SqliteDb.Db).now ∧
      r.createdAt = p₀.createdAt ∧ r.id = p₀.id ∧
      db'.rows = (⟨[⟨1, "Project Alpha", "Next-gen infra", "product", 1, 0, 0⟩], 2, 7⟩ : SqliteDb.Db).rows.map
        (fun q => if q.id == (⟨1, some "New Name", none, none, none⟩ : ProjectRepo.UpdateProjectInput).id
          then SqliteDb.applyRow ⟨1, some "New Name", none, none, none⟩ (⟨[⟨1, "Project Alpha", "Next-gen infra", "product", 1, 0, 0⟩], 2, 7⟩ : SqliteDb.Db).now q
          else q) ∧
      (∀ q ∈ (⟨[⟨1, "Project Alpha", "Next-gen infra", "product", 1, 0, 0⟩], 2, 7⟩ : SqliteDb.Db).rows,
        ¬q.id = (⟨1, some "New Name", none, none, none⟩ : ProjectRepo.UpdateProjectInput).id → q ∈ db'.rows) :=
  claim_C2_frame_property.1 ⟨1, some "New Name", none, none, none⟩
    ⟨[⟨1, "Project Alpha", "Next-gen infra", "product", 1, 0, 0⟩], 2, 7⟩
    ⟨1, "Project Alpha", "Next-gen infra", "product", 1, 0, 0⟩
    (by unfold SqliteDb.Inv; decide) (by decide) (by decide)
    (by intro c hc; cases hc)

/-- C3 witness: the round-trip theorem applied to Scenario A's create
input on a fresh store. -/
theorem claim_C3_create_roundtrip_witness :
    ∃ q db', SqliteDb.createProject
        ⟨"Project Alpha", "Next-gen infra project with enough characters", "infrastructure", true⟩
        (SqliteDb.initDb 3) = .ok (q, db') ∧
      SqliteDb.getProjectById q.id db' = some q ∧
      q.id = (SqliteDb.initDb 3).nextId ∧ q.createdAt = (SqliteDb.initDb 3).now ∧
      q.updatedAt = (SqliteDb.initDb 3).now ∧
      q.name = (⟨"Project Alpha", "Next-gen infra project with enough characters", "infrastructure", true⟩ : ProjectRepo.CreateProjectInput).name ∧
      q.description = (⟨"Project Alpha", "Next-gen infra project with enough characters", "infrastructure", true⟩ : ProjectRepo.CreateProjectInput).description ∧
      q.category = (⟨"Project Alpha", "Next-gen infra project with enough characters", "infrastructure", true⟩ : ProjectRepo.CreateProjectInput).category ∧
      q.isPublic = (⟨"Project Alpha", "Next-gen infra project with enough characters", "infrastructure", true⟩ : ProjectRepo.CreateProjectInput).isPublic ∧
      db'.rows = (SqliteDb.initDb 3).rows ++
        [SqliteDb.insertedRow
          ⟨"Project Alpha", "Next-gen infra project with enough characters", "infrastructure", true⟩
          (SqliteDb.initDb 3)] :=
  claim_C3_create_roundtrip.1
    ⟨"Project Alpha", "Next-gen infra project with enough characters", "infrastructure", true⟩
    (SqliteDb.initDb 3) (by decide) (by decide)

/-- C5 witness: create with the category "bogus" fails with a
StorageError on a concrete store. -/
theorem claim_C5_category_enforcement_witness :
    SqliteDb.createProject ⟨"Project X", "Some description here", "bogus", false⟩
      (SqliteDb.initDb 0) = .error .storage :=
  claim_C5_category_enforcement.1 ⟨"Project X", "Some description here", "bogus", false⟩
    (SqliteDb.initDb 0) (by decide)

/-- C6 witness: list() on the freshly initialized empty store returns
the empty sequence. -/
theorem claim_C6_list_ordering_witness :
    SqliteDb.getAllProjects (SqliteDb.initDb 0) = [] :=
  (claim_C6_list_ordering.1 (SqliteDb.initDb 0)).2.2 rfl

/-- C7 witness: a wildcard-free query matching no project returns the
empty sequence on a concrete store. -/
theorem claim_C7_search_substring_witness :
    SqliteDb.searchProjects "zzz-no-match"
      (⟨[⟨1, "abc", "ddddddddddd", "product", 0, 3, 3⟩], 2, 3⟩ : SqliteDb.Db) = [] :=
  claim_C7_search_substring.2.2.1 "zzz-no-match"
    ⟨[⟨1, "abc", "ddddddddddd", "product", 0, 3, 3⟩], 2, 3⟩
    (by decide) (by decide)

/-- C8 witness: a concrete create on a fresh store at time 5 yields a
record with createdAt = updatedAt = 5. -/
theorem claim_C8_timestamp_invariant_witness :
    (⟨1, "Project Alpha", "Next-gen infra", "infrastructure", true, 5, 5⟩ : SqliteDb.ProjectWithBoolean).createdAt =
      (⟨1, "Project Alpha", "Next-gen infra", "infrastructure", true, 5, 5⟩ : SqliteDb.ProjectWithBoolean).updatedAt ∧
    (⟨1, "Project Alpha", "Next-gen infra", "infrastructure", true, 5, 5⟩ : SqliteDb.ProjectWithBoolean).createdAt =
      (SqliteDb.initDb 5).now :=
  claim_C8_timestamp_invariant.2.1
    ⟨"Project Alpha", "Next-gen infra", "infrastructure", true⟩
    (SqliteDb.initDb 5)
    ⟨1, "Project Alpha", "Next-gen infra", "infrastructure", true, 5, 5⟩
    ⟨[⟨1, "Project Alpha", "Next-gen infra", "infrastructure", 1, 5, 5⟩], 2, 5⟩
    (by decide) (by decide)

/-- C9 witness: the wildcard-free equivalence applied to the query
"abc" on the empty store. -/
theorem claim_C9_unescaped_wildcards_witness :
    SqliteDb.searchProjects "abc" (SqliteDb.initDb 0) =
      (List.insertionSort SqliteDb.updGE ((SqliteDb.initDb 0).rows.filter fun p =>
        ProjectRepo.containsCI "abc" p.name ||
        ProjectRepo.containsCI "abc" p.description)).map SqliteDb.convertToBoolean :=
  claim_C9_unescaped_wildcards.2.1 "abc" (SqliteDb.initDb 0) (by decide)

/-- C10 witness: the action-extraction theorem applied to a concrete
form whose switch is "on" and whose name field is non-empty. -/
theorem claim_C10_action_isPublic_witness :
    (⟨3, some "Valid Name", none, none, some true⟩ : ProjectRepo.UpdateProjectInput).id = 3 ∧
    (⟨3, some "Valid Name", none, none, some true⟩ : ProjectRepo.UpdateProjectInput).isPublic =
      some ((Actions.fdGet [("name", "Valid Name"), ("isPublic", "on")] "isPublic" == some "on") ||
        (Actions.fdGet [("name", "Valid Name"), ("isPublic", "on")] "isPublic" == some "true")) ∧
    (Actions.fdGet [("name", "Valid Name"), ("isPublic", "on")] "name" = some "" →
      (⟨3, some "Valid Name", none, none, some true⟩ : ProjectRepo.UpdateProjectInput).name = none) ∧
    (Actions.fdGet [("name", "Valid Name"), ("isPublic", "on")] "name" = none →
      (⟨3, some "Valid Name", none, none, some true⟩ : ProjectRepo.UpdateProjectInput).name = none) ∧
    (Actions.fdGet [("name", "Valid Name"), ("isPublic", "on")] "description" = some "" →
      (⟨3, some "Valid Name", none, none, some true⟩ : ProjectRepo.UpdateProjectInput).description = none) ∧
    (Actions.fdGet [("name", "Valid Name"), ("isPublic", "on")] "description" = none →
      (⟨3, some "Valid Name", none, none, some true⟩ : ProjectRepo.UpdateProjectInput).description = none) ∧
    (Actions.fdGet [("name", "Valid Name"), ("isPublic", "on")] "category" = some "" →
      (⟨3, some "Valid Name", none, none, some true⟩ : ProjectRepo.UpdateProjectInput).category = none) ∧
    (Actions.fdGet [("name", "Valid Name"), ("isPublic", "on")] "category" = none →
      (⟨3, some "Valid Name", none, none, some true⟩ : ProjectRepo.UpdateProjectInput).category = none) :=
  claim_C10_action_isPublic.1 3 [("name", "Valid Name"), ("isPublic", "on")]
    ⟨3, some "Valid Name", none, none, some true⟩ (by decide)
